import Mathlib

/-!
# Verification of the Tornado Cash Withdrawal Viewer aggregation core

Shallow embedding of `src/tornado_viewer.py`: the pool analyzer
(`analyze_pool`), the cross-pool merger (`analyze_tornado_cash`), the
pagination loops of `EtherscanAPI.get_internal_transactions` /
`get_normal_transactions`, and the row-level content of `format_output`
and `export_csv`.

Modelling conventions:
* Python `dict` / `defaultdict` keyed by strings is modelled as an
  association list updated in place (first occurrence wins on lookup,
  new keys are appended), which matches Python's insertion-ordered dicts.
* Wei amounts are integers (`Int`); the float division `total_wei / 10^18`
  is modelled exactly in `ℚ`, so "within floating-point tolerance" claims
  are settled in the exact rational semantics.
* `datetime.fromtimestamp` is injective on the integer timestamps used
  here, so dates are modelled as the raw integer timestamps.
* Network calls are oracles: a page oracle for the pagination loops and
  `Except String`-valued fetchers at the `analyze_pool` boundary
  (a Python exception is the `.error` case).
-/

namespace TornadoViewer

/-- A raw transaction as delivered by the explorer API.  Fields are the
ones `analyze_pool` reads: `from`, `to`, `value`, `timeStamp`, `hash`.
`toAddr` is `none` (or `some ""`) on contract creation; both are falsy in
the Python check `if tx["to"]`.  Internal transactions may lack a hash in
the API; the embedding models the field as always present (the Python
fallback `tx.get("hash", "internal")` then never fires). -/
structure RawTx where
  fromAddr : String
  toAddr : Option String
  value : Int
  timeStamp : Int
  hash : String
deriving Repr, DecidableEq

/-- The per-transaction detail stored by `analyze_pool`
(`{"hash": .., "value_wei": .., "timestamp": .., "type": ..}`). -/
structure StoredTx where
  hash : String
  value_wei : Int
  timestamp : Int
  type : String
deriving Repr, DecidableEq

/-- The per-recipient accumulator of `analyze_pool`
(`{"count": 0, "total_wei": 0, "transactions": []}`). -/
structure PoolStat where
  count : Nat
  total_wei : Int
  transactions : List StoredTx
deriving Repr, DecidableEq

/-- The `defaultdict` default value in `analyze_pool`. -/
def emptyStat : PoolStat := ⟨0, 0, []⟩

/-- Python's `str.lower()` on the ASCII strings used here (addresses,
pool keys), defined over the character list so it evaluates in the
kernel. -/
def lowerStr (s : String) : String := ⟨s.data.map Char.toLower⟩

/-- Association-list model of a Python dict: recipient address ↦ stats. -/
abbrev RecipientMap := List (String × PoolStat)

/-- Dict lookup (`m[k]` / `k in m`): first matching key. -/
def lookupA {α : Type} (m : List (String × α)) (k : String) : Option α :=
  match m with
  | [] => none
  | (k', v) :: rest => if k' = k then some v else lookupA rest k

/-- `defaultdict` update: apply `f` to the entry at `k`, inserting
`f d` at the end when `k` is absent (Python dicts append new keys). -/
def updateA {α : Type} (d : α) (m : List (String × α)) (k : String) (f : α → α) :
    List (String × α) :=
  match m with
  | [] => [(k, f d)]
  | (k', v) :: rest =>
      if k' = k then (k', f v) :: rest else (k', v) :: updateA d rest k f

/-- Dict assignment `m[k] = v`. -/
def setA {α : Type} (m : List (String × α)) (k : String) (v : α) :
    List (String × α) :=
  match m with
  | [] => [(k, v)]
  | (k', v') :: rest =>
      if k' = k then (k', v) :: rest else (k', v') :: setA rest k v

/-- The recipient bucket of a transaction:
`tx["to"].lower() if tx["to"] else "contract_creation"`
(`None` and `""` are both falsy). -/
def bucketOf (tx : RawTx) : String :=
  match tx.toAddr with
  | some s => if s = "" then "contract_creation" else lowerStr s
  | none => "contract_creation"

/-- The withdrawal filter of `analyze_pool`:
`tx["from"].lower() == pool_address and int(tx["value"]) > 0`,
where `pool_address` has already been lowercased. -/
def isWithdrawal (pool : String) (tx : RawTx) : Bool :=
  lowerStr tx.fromAddr == pool && decide (0 < tx.value)

/-- The stored detail appended for a retained transaction of the given
kind (`"normal"` or `"internal"`). -/
def storedOf (kind : String) (tx : RawTx) : StoredTx :=
  ⟨tx.hash, tx.value, tx.timeStamp, kind⟩

/-- One iteration of the accumulation loops of `analyze_pool`. -/
def addTx (pool kind : String) (m : RecipientMap) (tx : RawTx) : RecipientMap :=
  if isWithdrawal pool tx then
    updateA emptyStat m (bucketOf tx) (fun s =>
      { count := s.count + 1
        total_wei := s.total_wei + tx.value
        transactions := s.transactions ++ [storedOf kind tx] })
  else m

/-- The aggregation part of `analyze_pool` (lines 330–360): fold the
normal transactions first, then the internal ones, into the recipient
map.  `pool` is the already-lowercased pool address. -/
def aggregate_withdrawals (pool : String) (internal_txs normal_txs : List RawTx) :
    RecipientMap :=
  internal_txs.foldl (addTx pool "internal")
    (normal_txs.foldl (addTx pool "normal") [])

/-- `analyze_pool`: lowercase the pool address, fetch internal then
normal transactions (each fetch may raise), aggregate.  The fetchers
abstract `api.get_internal_transactions` / `api.get_normal_transactions`
applied to the fixed block range. -/
def analyze_pool (fetchInternal fetchNormal : String → Except String (List RawTx))
    (pool_address : String) : Except String RecipientMap := do
  let pa := lowerStr pool_address
  let internal_txs ← fetchInternal pa
  let normal_txs ← fetchNormal pa
  pure (aggregate_withdrawals pa internal_txs normal_txs)

/-- The transaction list stored for recipient `r` (empty when absent). -/
def txsFor (m : RecipientMap) (r : String) : List StoredTx :=
  ((lookupA m r).getD emptyStat).transactions

/-- The count stored for recipient `r` (zero when absent). -/
def countFor (m : RecipientMap) (r : String) : Nat :=
  ((lookupA m r).getD emptyStat).count

/-- The cumulative wei stored for recipient `r` (zero when absent). -/
def totalFor (m : RecipientMap) (r : String) : Int :=
  ((lookupA m r).getD emptyStat).total_wei

/-- The transactions the spec says recipient `r` should retain: the
normal then the internal transactions that pass the withdrawal filter
and bucket to `r`. -/
def retainedFor (pool r : String) (internal_txs normal_txs : List RawTx) :
    List StoredTx :=
  ((normal_txs.filter fun tx => isWithdrawal pool tx && (bucketOf tx == r)).map
      (storedOf "normal"))
    ++ ((internal_txs.filter fun tx => isWithdrawal pool tx && (bucketOf tx == r)).map
      (storedOf "internal"))

theorem lookupA_updateA {α : Type} (d : α) (m : List (String × α)) (k k' : String)
    (f : α → α) :
    lookupA (updateA d m k f) k' =
      if k' = k then some (f ((lookupA m k).getD d)) else lookupA m k' := by
  induction m with
  | nil =>
      by_cases h : k' = k
      · simp [updateA, lookupA, h]
      · simp [updateA, lookupA, h, Ne.symm h]
  | cons p rest ih =>
      obtain ⟨k₀, v₀⟩ := p
      by_cases h0 : k₀ = k
      · subst h0
        by_cases h1 : k' = k₀
        · simp [updateA, lookupA, h1]
        · simp [updateA, lookupA, h1, Ne.symm h1]
      · by_cases h1 : k₀ = k'
        · subst h1
          have h2 : ¬k₀ = k := h0
          simp [updateA, lookupA, h2, Ne.symm h2]
        · have h2 : ¬k' = k₀ := Ne.symm h1
          by_cases h3 : k' = k
          · subst h3
            simp [updateA, lookupA, h0, h1, h2, ih]
          · simp [updateA, lookupA, h0, h1, h2, h3, ih]

theorem lookupA_setA {α : Type} (m : List (String × α)) (k k' : String) (v : α) :
    lookupA (setA m k v) k' = if k' = k then some v else lookupA m k' := by
  induction m with
  | nil =>
      by_cases h : k' = k
      · simp [setA, lookupA, h]
      · simp [setA, lookupA, h, Ne.symm h]
  | cons p rest ih =>
      obtain ⟨k₀, v₀⟩ := p
      by_cases h0 : k₀ = k
      · subst h0
        by_cases h1 : k' = k₀
        · simp [setA, lookupA, h1]
        · simp [setA, lookupA, h1, Ne.symm h1]
      · by_cases h1 : k₀ = k'
        · subst h1
          have h2 : ¬k₀ = k := h0
          simp [setA, lookupA, h2, Ne.symm h2]
        · have h2 : ¬k' = k₀ := Ne.symm h1
          by_cases h3 : k' = k
          · subst h3
            simp [setA, lookupA, h0, h1, h2, ih]
          · simp [setA, lookupA, h0, h1, h2, h3, ih]

theorem txsFor_addTx (pool kind r : String) (m : RecipientMap) (tx : RawTx) :
    txsFor (addTx pool kind m tx) r =
      txsFor m r ++
        (if isWithdrawal pool tx && (bucketOf tx == r) then [storedOf kind tx]
         else []) := by
  by_cases hw : isWithdrawal pool tx
  · by_cases hb : bucketOf tx = r
    · subst hb
      simp [addTx, txsFor, hw, lookupA_updateA]
    · simp [addTx, txsFor, hw, lookupA_updateA, hb, Ne.symm hb]
  · simp [addTx, txsFor, hw]

theorem txsFor_foldl (pool kind r : String) (txs : List RawTx) (m : RecipientMap) :
    txsFor (txs.foldl (addTx pool kind) m) r =
      txsFor m r ++
        (txs.filter fun tx => isWithdrawal pool tx && (bucketOf tx == r)).map
          (storedOf kind) := by
  induction txs generalizing m with
  | nil => simp
  | cons tx txs ih =>
      by_cases h : isWithdrawal pool tx && (bucketOf tx == r) <;>
        simp [List.foldl_cons, ih, txsFor_addTx, h, List.filter_cons]

theorem txsFor_aggregate (pool r : String) (internal_txs normal_txs : List RawTx) :
    txsFor (aggregate_withdrawals pool internal_txs normal_txs) r =
      retainedFor pool r internal_txs normal_txs := by
  rw [aggregate_withdrawals, txsFor_foldl, txsFor_foldl, retainedFor]
  simp [txsFor, lookupA, emptyStat]

theorem countFor_addTx (pool kind r : String) (m : RecipientMap) (tx : RawTx) :
    countFor (addTx pool kind m tx) r =
      countFor m r +
        (if isWithdrawal pool tx && (bucketOf tx == r) then 1 else 0) := by
  by_cases hw : isWithdrawal pool tx
  · by_cases hb : bucketOf tx = r
    · subst hb
      simp [addTx, countFor, hw, lookupA_updateA]
    · simp [addTx, countFor, hw, lookupA_updateA, hb, Ne.symm hb]
  · simp [addTx, countFor, hw]

theorem countFor_foldl (pool kind r : String) (txs : List RawTx) (m : RecipientMap) :
    countFor (txs.foldl (addTx pool kind) m) r =
      countFor m r +
        (txs.filter fun tx => isWithdrawal pool tx && (bucketOf tx == r)).length := by
  induction txs generalizing m with
  | nil => simp
  | cons tx txs ih =>
      by_cases h : isWithdrawal pool tx && (bucketOf tx == r) <;>
        simp [List.foldl_cons, ih, countFor_addTx, h, List.filter_cons] <;> omega

theorem totalFor_addTx (pool kind r : String) (m : RecipientMap) (tx : RawTx) :
    totalFor (addTx pool kind m tx) r =
      totalFor m r +
        (if isWithdrawal pool tx && (bucketOf tx == r) then tx.value else 0) := by
  by_cases hw : isWithdrawal pool tx
  · by_cases hb : bucketOf tx = r
    · subst hb
      simp [addTx, totalFor, hw, lookupA_updateA]
    · simp [addTx, totalFor, hw, lookupA_updateA, hb, Ne.symm hb]
  · simp [addTx, totalFor, hw]

theorem totalFor_foldl (pool kind r : String) (txs : List RawTx) (m : RecipientMap) :
    totalFor (txs.foldl (addTx pool kind) m) r =
      totalFor m r +
        ((txs.filter fun tx => isWithdrawal pool tx && (bucketOf tx == r)).map
          (fun tx => tx.value)).sum := by
  induction txs generalizing m with
  | nil => simp
  | cons tx txs ih =>
      by_cases h : isWithdrawal pool tx && (bucketOf tx == r) <;>
        simp [List.foldl_cons, ih, totalFor_addTx, h, List.filter_cons] <;> ring

theorem countFor_aggregate (pool r : String) (internal_txs normal_txs : List RawTx) :
    countFor (aggregate_withdrawals pool internal_txs normal_txs) r =
      (retainedFor pool r internal_txs normal_txs).length := by
  rw [aggregate_withdrawals, countFor_foldl, countFor_foldl, retainedFor]
  simp [countFor, lookupA, emptyStat]

theorem totalFor_aggregate (pool r : String) (internal_txs normal_txs : List RawTx) :
    totalFor (aggregate_withdrawals pool internal_txs normal_txs) r =
      ((retainedFor pool r internal_txs normal_txs).map (fun t => t.value_wei)).sum := by
  rw [aggregate_withdrawals, totalFor_foldl, totalFor_foldl, retainedFor]
  simp [totalFor, lookupA, emptyStat, List.map_map, Function.comp_def, storedOf]

/-- Invariant of every stored per-recipient stat: at least one
withdrawal, at least one wei, and a nonempty transaction list. -/
def StatPos (s : PoolStat) : Prop :=
  1 ≤ s.count ∧ 1 ≤ s.total_wei ∧ s.transactions ≠ []

theorem statPos_addTx (pool kind : String) (m : RecipientMap) (tx : RawTx)
    (h : ∀ r s, lookupA m r = some s → StatPos s) :
    ∀ r s, lookupA (addTx pool kind m tx) r = some s → StatPos s := by
  intro r s hs
  by_cases hw : isWithdrawal pool tx
  · rw [addTx, if_pos hw, lookupA_updateA] at hs
    by_cases hb : r = bucketOf tx
    · rw [if_pos hb] at hs
      have hval : (1 : Int) ≤ tx.value := by
        have hw' := hw
        simp only [isWithdrawal, Bool.and_eq_true, decide_eq_true_eq] at hw'
        omega
      have htot : (0 : Int) ≤ ((lookupA m (bucketOf tx)).getD emptyStat).total_wei := by
        cases hlk : lookupA m (bucketOf tx) with
        | none => simp [hlk, emptyStat]
        | some s' =>
            have := (h _ _ hlk).2.1
            simp [hlk]
            omega
      obtain rfl : s = _ := (Option.some_injective _ hs).symm
      refine ⟨?_, ?_, ?_⟩
      · show 1 ≤ ((lookupA m (bucketOf tx)).getD emptyStat).count + 1
        omega
      · show 1 ≤ ((lookupA m (bucketOf tx)).getD emptyStat).total_wei + tx.value
        omega
      · show ((lookupA m (bucketOf tx)).getD emptyStat).transactions
            ++ [storedOf kind tx] ≠ []
        simp
    · rw [if_neg hb] at hs
      exact h r s hs
  · rw [addTx, if_neg hw] at hs
    exact h r s hs

theorem statPos_foldl (pool kind : String) (txs : List RawTx) :
    ∀ m : RecipientMap, (∀ r s, lookupA m r = some s → StatPos s) →
      ∀ r s, lookupA (txs.foldl (addTx pool kind) m) r = some s → StatPos s := by
  induction txs with
  | nil => intro m h; exact h
  | cons tx txs ih =>
      intro m h
      exact ih (addTx pool kind m tx) (statPos_addTx pool kind m tx h)

theorem statPos_aggregate (pool : String) (internal_txs normal_txs : List RawTx) :
    ∀ r s, lookupA (aggregate_withdrawals pool internal_txs normal_txs) r = some s →
      StatPos s := by
  rw [aggregate_withdrawals]
  exact statPos_foldl pool "internal" internal_txs _
    (statPos_foldl pool "normal" normal_txs [] (by intro r s hs; simp [lookupA] at hs))

/-! ## Cross-pool merge (`analyze_tornado_cash`) -/

/-- `EtherscanAPI.WEI_TO_ETH = 10**18`, as an exact rational scale. -/
def WEI_TO_ETH : ℚ := 10 ^ 18

/-- The Tornado Cash pool table (`TORNADO_CASH_POOLS`): pool key ↦
contract address.  The name and denomination fields are used
only for printing and are omitted. -/
def TORNADO_CASH_POOLS : List (String × String) :=
  [("1_eth", "0x47CE0C6eD5B0Ce3d3A51fdb1C52DC66a7c3c2936"),
   ("10_eth", "0x910Cbd523D972eb0a6f4cAe4618aD62622b39DbF"),
   ("100_eth", "0xA160cdAB225685dA1d56aa342Ad8841c3b53f291")]

/-- The default pool selection `list(TORNADO_CASH_POOLS.keys())`. -/
def poolKeys : List String := TORNADO_CASH_POOLS.map (fun p => p.1)

/-- The per-pool results dict built by the analysis loop. -/
abbrev PoolResults := List (String × RecipientMap)

/-- The merged per-recipient record of `analyze_tornado_cash`.  Field
names flatten the Python dict keys `"1_eth_count"`, …, `"last_date"`;
totals are exact rationals and dates are the underlying integer
timestamps (`datetime.fromtimestamp` is injective on them). -/
structure MergedRecord where
  count_1eth : Nat
  total_1eth : ℚ
  first_date_1eth : Option Int
  last_date_1eth : Option Int
  count_10eth : Nat
  total_10eth : ℚ
  first_date_10eth : Option Int
  last_date_10eth : Option Int
  count_100eth : Nat
  total_100eth : ℚ
  first_date_100eth : Option Int
  last_date_100eth : Option Int
  grand_total : ℚ
  first_date : Option Int
  last_date : Option Int
deriving Repr, DecidableEq

/-- The timestamps of a recipient's transactions in one pool. -/
def timestampsOf (d : PoolStat) : List Int :=
  d.transactions.map (fun t => t.timestamp)

/-- The stat the merge loop reads for `(key, addr)`:
`key in selected_pools and addr in pool_results.get(key, {})`. -/
def statFor (pr : PoolResults) (selected : List String) (key addr : String) :
    Option PoolStat :=
  if key ∈ selected then lookupA ((lookupA pr key).getD []) addr else none

/-- The timestamp list a pool contributes to `all_timestamps`
(empty when the recipient is absent from the pool; extending by an
empty list when `data["transactions"]` is empty is a no-op, so the
Python nonemptiness guard is dropped). -/
def contribTs (st : Option PoolStat) : List Int :=
  match st with
  | some d => timestampsOf d
  | none => []

/-- The count the merge loop stores for one pool: `data["count"]` when
the recipient is present, otherwise the initialized `0`. -/
def poolCount (st : Option PoolStat) : Nat :=
  match st with
  | some d => d.count
  | none => 0

/-- The converted total the merge loop stores for one pool:
`data["total_wei"] / api.WEI_TO_ETH` when present, otherwise `0.0`. -/
def poolTotal (st : Option PoolStat) : ℚ :=
  match st with
  | some d => (d.total_wei : ℚ) / WEI_TO_ETH
  | none => 0

/-- The merged record for one address (body of the
`for address in all_addresses` loop, lines 418–480).  Per-pool first and
last dates stay `none` exactly when the pool contributes no timestamps,
matching the `if data["transactions"]:` guard, since `List.min?` of `[]`
is `none`. -/
def mergeRecord (pr : PoolResults) (selected : List String) (addr : String) :
    MergedRecord :=
  let st1 := statFor pr selected "1_eth" addr
  let st10 := statFor pr selected "10_eth" addr
  let st100 := statFor pr selected "100_eth" addr
  let all_timestamps := contribTs st1 ++ contribTs st10 ++ contribTs st100
  { count_1eth := poolCount st1
    total_1eth := poolTotal st1
    first_date_1eth := (contribTs st1).min?
    last_date_1eth := (contribTs st1).max?
    count_10eth := poolCount st10
    total_10eth := poolTotal st10
    first_date_10eth := (contribTs st10).min?
    last_date_10eth := (contribTs st10).max?
    count_100eth := poolCount st100
    total_100eth := poolTotal st100
    first_date_100eth := (contribTs st100).min?
    last_date_100eth := (contribTs st100).max?
    grand_total := poolTotal st1 + poolTotal st10 + poolTotal st100
    first_date := all_timestamps.min?
    last_date := all_timestamps.max? }

/-- The union of recipient addresses over the selected pools
(`all_addresses`).  Python iterates a `set`, whose order is unspecified;
the embedding picks a concrete duplicate-free enumeration, and every
claim about the merged result is stated about its key ↦ value mapping. -/
def allAddresses (pr : PoolResults) (selected : List String) : List String :=
  (selected.foldl
      (fun acc k => acc ++ ((lookupA pr k).getD []).map (fun e => e.1)) []).dedup

/-- The merged dict: one record per address of the union. -/
def mergeResults (pr : PoolResults) (selected : List String) :
    List (String × MergedRecord) :=
  (allAddresses pr selected).map (fun a => (a, mergeRecord pr selected a))

/-- The per-pool analysis step of the loop in `analyze_tornado_cash`:
look up the pool's address and run `analyze_pool` on it with the
resolved block range. -/
def poolOutcome (fetchInternal fetchNormal : String → Int → Int → Except String (List RawTx))
    (start_block end_block : Int) (pool_key : String) : Except String RecipientMap :=
  match lookupA TORNADO_CASH_POOLS pool_key with
  | some addr =>
      analyze_pool (fun a => fetchInternal a start_block end_block)
        (fun a => fetchNormal a start_block end_block) addr
  | none => Except.ok []

/-- The `pool_results` dict: skip unknown pool keys, store the pool's
recipient map on success and `{}` when `analyze_pool` raised
(the `try`/`except` of lines 396–408). -/
def buildPoolResults (outcome : String → Except String RecipientMap)
    (selected : List String) : PoolResults :=
  selected.foldl
    (fun acc pool_key =>
      match lookupA TORNADO_CASH_POOLS pool_key with
      | none => acc
      | some _ =>
          match outcome pool_key with
          | Except.ok results => setA acc pool_key results
          | Except.error _ => setA acc pool_key []) []

/-- `analyze_tornado_cash`: resolve the optional date bounds to blocks
(`get_block_by_timestamp`, not guarded by a `try`), analyze each
selected pool with per-pool error degradation, then merge.
`startResolve` / `endResolve` are `none` when the corresponding date is
absent, and otherwise carry the outcome of the block lookup. -/
def analyze_tornado_cash (startResolve endResolve : Option (Except String Int))
    (fetchInternal fetchNormal : String → Int → Int → Except String (List RawTx))
    (selected_pools : Option (List String)) :
    Except String (List (String × MergedRecord)) := do
  let selected := selected_pools.getD poolKeys
  let start_block ← match startResolve with
    | none => pure 0
    | some r => r
  let end_block ← match endResolve with
    | none => pure 99999999
    | some r => r
  let pr := buildPoolResults
    (poolOutcome fetchInternal fetchNormal start_block end_block) selected
  pure (mergeResults pr selected)

/-! ## Pagination (`EtherscanAPI.get_internal_transactions` /
`get_normal_transactions`) -/

/-- The `while True` pagination loop shared by the two fetchers.
`pages n` is the oracle for the `"result"` payload of the page-`n`
request: `none` models a non-list payload, `some l` a list.  The Python
truthiness test `if data["result"] and isinstance(data["result"], list)`
passes exactly for a nonempty list; a full page (10000 rows) advances
`page`, anything else breaks.  `fuel` bounds the number of iterations
(the Python loop runs unboundedly; every claim supplies enough fuel). -/
def fetchPages (pages : Nat → Option (List RawTx)) :
    Nat → Nat → List RawTx → List RawTx
  | 0, _, all_txs => all_txs
  | fuel + 1, page, all_txs =>
      match pages page with
      | some res =>
          if res = [] then all_txs
          else if res.length < 10000 then all_txs ++ res
          else fetchPages pages fuel (page + 1) (all_txs ++ res)
      | none => all_txs

/-- `get_internal_transactions`: page from 1 with an empty accumulator. -/
def get_internal_transactions (pages : Nat → Option (List RawTx)) (fuel : Nat) :
    List RawTx :=
  fetchPages pages fuel 1 []

/-- `get_normal_transactions`: identical loop over the `txlist` action. -/
def get_normal_transactions (pages : Nat → Option (List RawTx)) (fuel : Nat) :
    List RawTx :=
  fetchPages pages fuel 1 []

/-! ## Output rows (`format_output` / `export_csv`) -/

/-- `sorted(results.items(), key=lambda x: x[1]["grand_total"], reverse=True)`:
stable descending sort by grand total (shared by table and CSV). -/
def sortByGrandTotal (results : List (String × MergedRecord)) :
    List (String × MergedRecord) :=
  results.mergeSort (fun a b => decide (b.2.grand_total ≤ a.2.grand_total))

/-- The recipient rows the table body of `format_output` prints: unless
`show_zero`, recipients with non-positive grand total are dropped, then
rows are sorted by grand total descending. -/
def format_output_rows (results : List (String × MergedRecord))
    (show_zero : Bool) : List (String × MergedRecord) :=
  let results := if show_zero then results
    else results.filter (fun e => decide (0 < e.2.grand_total))
  sortByGrandTotal results

/-- The data rows `export_csv` writes: every recipient of the map,
sorted by grand total descending. -/
def export_csv_rows (results : List (String × MergedRecord)) :
    List (String × MergedRecord) :=
  sortByGrandTotal results

/-! ## Helper lemmas about `analyze_pool` as an `Except` computation -/

theorem analyze_pool_ok (fetchInternal fetchNormal : String → Except String (List RawTx))
    (pool_address : String) (internal_txs normal_txs : List RawTx)
    (hI : fetchInternal (lowerStr pool_address) = Except.ok internal_txs)
    (hN : fetchNormal (lowerStr pool_address) = Except.ok normal_txs) :
    analyze_pool fetchInternal fetchNormal pool_address =
      Except.ok (aggregate_withdrawals (lowerStr pool_address) internal_txs normal_txs) := by
  simp [analyze_pool, hI, hN, Bind.bind, Except.bind, Functor.map, Except.map, pure,
    Except.pure]

theorem analyze_pool_ok_shape
    (fetchInternal fetchNormal : String → Except String (List RawTx))
    (pool_address : String) (m : RecipientMap)
    (h : analyze_pool fetchInternal fetchNormal pool_address = Except.ok m) :
    ∃ internal_txs normal_txs,
      fetchInternal (lowerStr pool_address) = Except.ok internal_txs ∧
      fetchNormal (lowerStr pool_address) = Except.ok normal_txs ∧
      m = aggregate_withdrawals (lowerStr pool_address) internal_txs normal_txs := by
  cases eI : fetchInternal (lowerStr pool_address) with
  | error s =>
      simp [analyze_pool, eI, Bind.bind, Except.bind, Functor.map, Except.map] at h
  | ok internal_txs =>
      cases eN : fetchNormal (lowerStr pool_address) with
      | error s =>
          simp [analyze_pool, eI, eN, Bind.bind, Except.bind, Functor.map,
            Except.map] at h
      | ok normal_txs =>
          simp [analyze_pool, eI, eN, Bind.bind, Except.bind, Functor.map, Except.map,
            pure, Except.pure] at h
          exact ⟨internal_txs, normal_txs, rfl, rfl, h.symm⟩

/-! ## Claim theorems -/

/-- C1: given its two fetches succeed, `analyze_pool` retains, for every
recipient `r`, exactly the fetched transactions (normal ones first, then
internal ones) whose sender equals the pool address case-insensitively
and whose value is strictly positive and which bucket to `r`; in
particular a retained transaction whose receiver field is absent is
accumulated under the sentinel recipient `"contract_creation"` rather
than dropped. -/
theorem C1_analyze_pool_retains_exactly
    (fetchInternal fetchNormal : String → Except String (List RawTx))
    (pool_address : String) (internal_txs normal_txs : List RawTx)
    (hI : fetchInternal (lowerStr pool_address) = Except.ok internal_txs)
    (hN : fetchNormal (lowerStr pool_address) = Except.ok normal_txs) :
    analyze_pool fetchInternal fetchNormal pool_address =
      Except.ok (aggregate_withdrawals (lowerStr pool_address) internal_txs normal_txs)
    ∧ (∀ r,
        txsFor (aggregate_withdrawals (lowerStr pool_address) internal_txs normal_txs) r
          = retainedFor (lowerStr pool_address) r internal_txs normal_txs)
    ∧ (∀ tx ∈ normal_txs, isWithdrawal (lowerStr pool_address) tx = true →
        tx.toAddr = none →
        storedOf "normal" tx ∈
          txsFor (aggregate_withdrawals (lowerStr pool_address) internal_txs normal_txs)
            "contract_creation")
    ∧ (∀ tx ∈ internal_txs, isWithdrawal (lowerStr pool_address) tx = true →
        tx.toAddr = none →
        storedOf "internal" tx ∈
          txsFor (aggregate_withdrawals (lowerStr pool_address) internal_txs normal_txs)
            "contract_creation") := by
  refine ⟨analyze_pool_ok _ _ _ _ _ hI hN, fun r => txsFor_aggregate _ _ _ _, ?_, ?_⟩
  · intro tx hmem hw hto
    rw [txsFor_aggregate, retainedFor]
    apply List.mem_append_left
    refine List.mem_map.mpr ⟨tx, List.mem_filter.mpr ⟨hmem, ?_⟩, rfl⟩
    simp [hw, bucketOf, hto]
  · intro tx hmem hw hto
    rw [txsFor_aggregate, retainedFor]
    apply List.mem_append_right
    refine List.mem_map.mpr ⟨tx, List.mem_filter.mpr ⟨hmem, ?_⟩, rfl⟩
    simp [hw, bucketOf, hto]

/-- C1 witness: a pool with one normal withdrawal to a mixed-case
address and one internal withdrawal with an absent receiver. -/
theorem C1_witness :
    ((fun _ : String => (Except.ok [(⟨"0xPOOL", none, 7, 50, "hi"⟩ : RawTx)] :
          Except String (List RawTx)))
        (lowerStr "0xPool") = Except.ok [(⟨"0xPOOL", none, 7, 50, "hi"⟩ : RawTx)])
    ∧ ((fun _ : String => (Except.ok [(⟨"0xPool", some "0xAbC", 5, 40, "hn"⟩ : RawTx)] :
          Except String (List RawTx)))
        (lowerStr "0xPool") = Except.ok [(⟨"0xPool", some "0xAbC", 5, 40, "hn"⟩ : RawTx)])
    ∧ (analyze_pool
        (fun _ => Except.ok [(⟨"0xPOOL", none, 7, 50, "hi"⟩ : RawTx)])
        (fun _ => Except.ok [(⟨"0xPool", some "0xAbC", 5, 40, "hn"⟩ : RawTx)]) "0xPool" =
          Except.ok (aggregate_withdrawals (lowerStr "0xPool")
            [(⟨"0xPOOL", none, 7, 50, "hi"⟩ : RawTx)]
            [(⟨"0xPool", some "0xAbC", 5, 40, "hn"⟩ : RawTx)])
      ∧ (∀ r, txsFor (aggregate_withdrawals (lowerStr "0xPool")
            [(⟨"0xPOOL", none, 7, 50, "hi"⟩ : RawTx)]
            [(⟨"0xPool", some "0xAbC", 5, 40, "hn"⟩ : RawTx)]) r
          = retainedFor (lowerStr "0xPool") r
            [(⟨"0xPOOL", none, 7, 50, "hi"⟩ : RawTx)]
            [(⟨"0xPool", some "0xAbC", 5, 40, "hn"⟩ : RawTx)])
      ∧ (∀ tx ∈ [(⟨"0xPool", some "0xAbC", 5, 40, "hn"⟩ : RawTx)],
          isWithdrawal (lowerStr "0xPool") tx = true → tx.toAddr = none →
          storedOf "normal" tx ∈
            txsFor (aggregate_withdrawals (lowerStr "0xPool")
              [(⟨"0xPOOL", none, 7, 50, "hi"⟩ : RawTx)]
              [(⟨"0xPool", some "0xAbC", 5, 40, "hn"⟩ : RawTx)]) "contract_creation")
      ∧ (∀ tx ∈ [(⟨"0xPOOL", none, 7, 50, "hi"⟩ : RawTx)],
          isWithdrawal (lowerStr "0xPool") tx = true → tx.toAddr = none →
          storedOf "internal" tx ∈
            txsFor (aggregate_withdrawals (lowerStr "0xPool")
              [(⟨"0xPOOL", none, 7, 50, "hi"⟩ : RawTx)]
              [(⟨"0xPool", some "0xAbC", 5, 40, "hn"⟩ : RawTx)]) "contract_creation")) :=
  ⟨rfl, rfl,
    C1_analyze_pool_retains_exactly
      (fun _ => Except.ok [(⟨"0xPOOL", none, 7, 50, "hi"⟩ : RawTx)])
      (fun _ => Except.ok [(⟨"0xPool", some "0xAbC", 5, 40, "hn"⟩ : RawTx)])
      "0xPool" _ _ rfl rfl⟩

/-- C2: every recipient entry of a successful `analyze_pool` result has
`count` equal to the length of its stored transaction list and
`total_wei` equal to the sum of the stored transactions' values. -/
theorem C2_count_total_invariant
    (fetchInternal fetchNormal : String → Except String (List RawTx))
    (pool_address : String) (m : RecipientMap)
    (h : analyze_pool fetchInternal fetchNormal pool_address = Except.ok m) :
    ∀ r s, lookupA m r = some s →
      s.count = s.transactions.length ∧
      s.total_wei = (s.transactions.map (fun t => t.value_wei)).sum := by
  obtain ⟨internal_txs, normal_txs, hI, hN, rfl⟩ :=
    analyze_pool_ok_shape _ _ _ _ h
  intro r s hs
  have hc : countFor (aggregate_withdrawals (lowerStr pool_address)
      internal_txs normal_txs) r = s.count := by
    rw [countFor, hs]
    rfl
  have ht : txsFor (aggregate_withdrawals (lowerStr pool_address)
      internal_txs normal_txs) r = s.transactions := by
    rw [txsFor, hs]
    rfl
  have hw : totalFor (aggregate_withdrawals (lowerStr pool_address)
      internal_txs normal_txs) r = s.total_wei := by
    rw [totalFor, hs]
    rfl
  constructor
  · rw [← hc, ← ht, countFor_aggregate, txsFor_aggregate]
  · rw [← hw, ← ht, totalFor_aggregate, txsFor_aggregate]

/-- C2 witness: two withdrawals to the same recipient; the entry has
count 2 and cumulative value 12. -/
theorem C2_witness :
    (analyze_pool
        (fun _ => Except.ok [(⟨"0xp", some "0xa", 7, 50, "h2"⟩ : RawTx)])
        (fun _ => Except.ok [(⟨"0xp", some "0xa", 5, 40, "h1"⟩ : RawTx)]) "0xP" =
      Except.ok (aggregate_withdrawals (lowerStr "0xP")
        [(⟨"0xp", some "0xa", 7, 50, "h2"⟩ : RawTx)]
        [(⟨"0xp", some "0xa", 5, 40, "h1"⟩ : RawTx)]))
    ∧ (∀ r s, lookupA (aggregate_withdrawals (lowerStr "0xP")
        [(⟨"0xp", some "0xa", 7, 50, "h2"⟩ : RawTx)]
        [(⟨"0xp", some "0xa", 5, 40, "h1"⟩ : RawTx)]) r = some s →
      s.count = s.transactions.length ∧
      s.total_wei = (s.transactions.map (fun t => t.value_wei)).sum)
    ∧ lookupA (aggregate_withdrawals (lowerStr "0xP")
        [(⟨"0xp", some "0xa", 7, 50, "h2"⟩ : RawTx)]
        [(⟨"0xp", some "0xa", 5, 40, "h1"⟩ : RawTx)]) "0xa" =
        some ⟨2, 12, [⟨"h1", 5, 40, "normal"⟩, ⟨"h2", 7, 50, "internal"⟩]⟩ :=
  ⟨rfl,
    C2_count_total_invariant
      (fun _ => Except.ok [(⟨"0xp", some "0xa", 7, 50, "h2"⟩ : RawTx)])
      (fun _ => Except.ok [(⟨"0xp", some "0xa", 5, 40, "h1"⟩ : RawTx)]) "0xP" _ rfl,
    by decide⟩

theorem fetchPages_concat (pages : Nat → Option (List RawTx)) :
    ∀ (n p : Nat) (acc : List RawTx) (fuel : Nat), n < fuel →
      (∀ k, k < n → ∃ l, pages (p + k) = some l ∧ l.length = 10000) →
      (pages (p + n) = none ∨ ∃ l, pages (p + n) = some l ∧ l.length < 10000) →
      fetchPages pages fuel p acc =
        acc ++ ((List.range (n + 1)).map (fun k => (pages (p + k)).getD [])).flatten := by
  intro n
  induction n with
  | zero =>
      intro p acc fuel hfuel _ hlast
      obtain ⟨fuel, rfl⟩ : ∃ f, fuel = f + 1 := ⟨fuel - 1, by omega⟩
      have hr1 : List.range 1 = [0] := rfl
      rcases hlast with hnone | ⟨l, hsome, hlen⟩
      · rw [Nat.add_zero] at hnone
        simp [fetchPages, hnone, hr1]
      · rw [Nat.add_zero] at hsome
        by_cases hnil : l = []
        · subst hnil
          simp [fetchPages, hsome, hr1]
        · simp [fetchPages, hsome, hnil, hlen, hr1]
  | succ n ih =>
      intro p acc fuel hfuel hfull hlast
      obtain ⟨fuel, rfl⟩ : ∃ f, fuel = f + 1 := ⟨fuel - 1, by omega⟩
      obtain ⟨l, hsome, hlen⟩ := hfull 0 (Nat.succ_pos n)
      rw [Nat.add_zero] at hsome
      have hne : l ≠ [] := by
        intro hl
        rw [hl] at hlen
        simp at hlen
      have hstep : fetchPages pages (fuel + 1) p acc =
          fetchPages pages fuel (p + 1) (acc ++ l) := by
        simp [fetchPages, hsome, hne, hlen]
      have harg : ∀ k : Nat, p + Nat.succ k = p + 1 + k := fun k => by omega
      rw [hstep,
        ih (p + 1) (acc ++ l) fuel (by omega)
          (fun k hk => by
            obtain ⟨l', h1, h2⟩ := hfull (k + 1) (by omega)
            exact ⟨l', by rw [← harg k]; exact h1, h2⟩)
          (by
            rcases hlast with h | ⟨l', h1, h2⟩
            · exact Or.inl (by rw [← harg n]; exact h)
            · exact Or.inr ⟨l', by rw [← harg n]; exact h1, h2⟩)]
      have hmaps : (List.range (n + 1)).map (fun k => (pages (p + 1 + k)).getD []) =
          (List.range (n + 1)).map ((fun k => (pages (p + k)).getD []) ∘ Nat.succ) := by
        apply List.map_congr_left
        intro k _
        show (pages (p + 1 + k)).getD [] = (pages (p + Nat.succ k)).getD []
        rw [harg k]
      rw [List.range_succ_eq_map (n + 1)]
      simp only [List.map_cons, List.flatten_cons, List.map_map, Nat.add_zero,
        hsome, Option.getD_some]
      rw [← hmaps, List.append_assoc]

/-- C5: the pagination loops of `get_internal_transactions` and
`get_normal_transactions` (a) request page `N+1` exactly when page `N`
returned a full page of 10000 rows, (b) terminate on a short nonempty
page (appending it), (c) terminate without appending on a non-list or
empty result, and (d) return the concatenation of all pages in the order
received. -/
theorem C5_pagination (pages : Nat → Option (List RawTx)) :
    (∀ fuel page acc l, pages page = some l → l.length = 10000 →
      fetchPages pages (fuel + 1) page acc = fetchPages pages fuel (page + 1) (acc ++ l))
    ∧ (∀ fuel page acc l, pages page = some l → l ≠ [] → l.length < 10000 →
      fetchPages pages (fuel + 1) page acc = acc ++ l)
    ∧ (∀ fuel page acc, pages page = none ∨ pages page = some [] →
      fetchPages pages (fuel + 1) page acc = acc)
    ∧ (∀ n fuel, n < fuel →
      (∀ k, k < n → ∃ l, pages (1 + k) = some l ∧ l.length = 10000) →
      (pages (1 + n) = none ∨ ∃ l, pages (1 + n) = some l ∧ l.length < 10000) →
      get_internal_transactions pages fuel =
        ((List.range (n + 1)).map (fun k => (pages (1 + k)).getD [])).flatten
      ∧ get_normal_transactions pages fuel =
        ((List.range (n + 1)).map (fun k => (pages (1 + k)).getD [])).flatten) := by
  refine ⟨?_, ?_, ?_, ?_⟩
  · intro fuel page acc l hsome hlen
    have hne : l ≠ [] := by
      intro hl
      rw [hl] at hlen
      simp at hlen
    simp [fetchPages, hsome, hne, hlen]
  · intro fuel page acc l hsome hne hlen
    simp [fetchPages, hsome, hne, hlen]
  · intro fuel page acc h
    rcases h with h | h <;> simp [fetchPages, h]
  · intro n fuel hfuel hfull hlast
    constructor
    · rw [get_internal_transactions,
        fetchPages_concat pages n 1 [] fuel hfuel hfull hlast]
      simp
    · rw [get_normal_transactions,
        fetchPages_concat pages n 1 [] fuel hfuel hfull hlast]
      simp

/-- C5 witness: page 1 is full (10000 rows), page 2 is short, the fetch
returns page 1 then page 2. -/
theorem C5_witness :
    ((fun n : Nat => if n = 1
        then some (List.replicate 10000 (⟨"a", some "b", 1, 2, "h"⟩ : RawTx))
        else if n = 2 then some [(⟨"c", some "d", 3, 4, "k"⟩ : RawTx)] else none) 1 =
      some (List.replicate 10000 (⟨"a", some "b", 1, 2, "h"⟩ : RawTx))
      ∧ (List.replicate 10000 (⟨"a", some "b", 1, 2, "h"⟩ : RawTx)).length = 10000)
    ∧ ((fun n : Nat => if n = 1
        then some (List.replicate 10000 (⟨"a", some "b", 1, 2, "h"⟩ : RawTx))
        else if n = 2 then some [(⟨"c", some "d", 3, 4, "k"⟩ : RawTx)] else none) 2 =
      some [(⟨"c", some "d", 3, 4, "k"⟩ : RawTx)]
      ∧ ([(⟨"c", some "d", 3, 4, "k"⟩ : RawTx)]).length < 10000)
    ∧ get_internal_transactions
        (fun n : Nat => if n = 1
          then some (List.replicate 10000 (⟨"a", some "b", 1, 2, "h"⟩ : RawTx))
          else if n = 2 then some [(⟨"c", some "d", 3, 4, "k"⟩ : RawTx)] else none) 2 =
        ((List.range 2).map (fun k =>
          ((fun n : Nat => if n = 1
            then some (List.replicate 10000 (⟨"a", some "b", 1, 2, "h"⟩ : RawTx))
            else if n = 2 then some [(⟨"c", some "d", 3, 4, "k"⟩ : RawTx)] else none)
              (1 + k)).getD [])).flatten :=
  ⟨⟨rfl, by rw [List.length_replicate]⟩, ⟨rfl, by decide⟩,
    ((C5_pagination _).2.2.2 1 2 (by omega)
      (fun k hk => by
        obtain rfl : k = 0 := by omega
        exact ⟨_, rfl, by rw [List.length_replicate]⟩)
      (Or.inr ⟨_, rfl, by decide⟩)).1⟩

/-! ## Helper lemmas about the merged structures -/

theorem lookupA_map_pair {α : Type} (l : List String) (g : String → α) (k : String) :
    lookupA (l.map (fun a => (a, g a))) k = if k ∈ l then some (g k) else none := by
  induction l with
  | nil => simp [lookupA]
  | cons a l ih =>
      by_cases h : a = k
      · subst h
        simp [lookupA]
      · simp [lookupA, h, ih, Ne.symm h]

theorem lookupA_isSome_iff_mem_keys {α : Type} (m : List (String × α)) (k : String) :
    (lookupA m k).isSome ↔ k ∈ m.map (fun e => e.1) := by
  induction m with
  | nil => simp [lookupA]
  | cons p rest ih =>
      obtain ⟨k0, v0⟩ := p
      by_cases h : k0 = k
      · subst h
        simp [lookupA]
      · simp [lookupA, h, ih, Ne.symm h]

theorem mem_foldl_append {α : Type} (f : String → List α) (sel : List String) :
    ∀ (acc : List α) (x : α),
      x ∈ sel.foldl (fun acc k => acc ++ f k) acc ↔ x ∈ acc ∨ ∃ k ∈ sel, x ∈ f k := by
  induction sel with
  | nil => simp
  | cons p rest ih =>
      intro acc x
      rw [List.foldl_cons, ih]
      simp only [List.mem_append, List.mem_cons]
      constructor
      · rintro ((h | h) | ⟨k, hk1, hk2⟩)
        · exact Or.inl h
        · exact Or.inr ⟨p, Or.inl rfl, h⟩
        · exact Or.inr ⟨k, Or.inr hk1, hk2⟩
      · rintro (h | ⟨k, rfl | hk1, hk2⟩)
        · exact Or.inl (Or.inl h)
        · exact Or.inl (Or.inr hk2)
        · exact Or.inr ⟨k, hk1, hk2⟩

theorem mem_allAddresses (pr : PoolResults) (selected : List String) (addr : String) :
    addr ∈ allAddresses pr selected ↔
      ∃ k ∈ selected, (lookupA ((lookupA pr k).getD []) addr).isSome := by
  rw [allAddresses, List.mem_dedup, mem_foldl_append]
  simp [lookupA_isSome_iff_mem_keys]

theorem lookupA_mergeResults (pr : PoolResults) (selected : List String) (addr : String) :
    lookupA (mergeResults pr selected) addr =
      if addr ∈ allAddresses pr selected then some (mergeRecord pr selected addr)
      else none := by
  rw [mergeResults, lookupA_map_pair]

theorem lookupA_buildPoolResults (outcome : String → Except String RecipientMap)
    (selected : List String) (k : String) :
    lookupA (buildPoolResults outcome selected) k =
      if k ∈ selected ∧ (lookupA TORNADO_CASH_POOLS k).isSome then
        some (match outcome k with
          | Except.ok results => results
          | Except.error _ => [])
      else none := by
  suffices h : ∀ acc : PoolResults,
      lookupA (selected.foldl
        (fun acc pool_key =>
          match lookupA TORNADO_CASH_POOLS pool_key with
          | none => acc
          | some _ =>
              match outcome pool_key with
              | Except.ok results => setA acc pool_key results
              | Except.error _ => setA acc pool_key []) acc) k =
        if k ∈ selected ∧ (lookupA TORNADO_CASH_POOLS k).isSome then
          some (match outcome k with
            | Except.ok results => results
            | Except.error _ => [])
        else lookupA acc k by
    rw [buildPoolResults, h []]
    by_cases hc : k ∈ selected ∧ (lookupA TORNADO_CASH_POOLS k).isSome
    · rw [if_pos hc, if_pos hc]
    · rw [if_neg hc, if_neg hc, lookupA]
  induction selected with
  | nil =>
      intro acc
      simp
  | cons p rest ih =>
      intro acc
      rw [List.foldl_cons, ih]
      by_cases hk : k ∈ rest ∧ (lookupA TORNADO_CASH_POOLS k).isSome
      · rw [if_pos hk, if_pos ⟨List.mem_cons_of_mem p hk.1, hk.2⟩]
      · rw [if_neg hk]
        by_cases hp : p = k
        · subst hp
          cases hknown : lookupA TORNADO_CASH_POOLS p with
          | none => simp
          | some a =>
              cases ho : outcome p with
              | ok results => simp [ho, lookupA_setA]
              | error e => simp [ho, lookupA_setA]
        · have hc : ¬(k ∈ p :: rest ∧ (lookupA TORNADO_CASH_POOLS k).isSome) := by
            intro hcontra
            rcases List.mem_cons.mp hcontra.1 with h | h
            · exact hp h.symm
            · exact hk ⟨h, hcontra.2⟩
          rw [if_neg hc]
          cases hknown : lookupA TORNADO_CASH_POOLS p with
          | none => simp
          | some a =>
              cases ho : outcome p with
              | ok results => simp [ho, lookupA_setA, Ne.symm hp]
              | error e => simp [ho, lookupA_setA, Ne.symm hp]

theorem known_pool_keys (k : String)
    (h : (lookupA TORNADO_CASH_POOLS k).isSome) :
    k = "1_eth" ∨ k = "10_eth" ∨ k = "100_eth" := by
  by_cases h1 : k = "1_eth"
  · exact Or.inl h1
  by_cases h2 : k = "10_eth"
  · exact Or.inr (Or.inl h2)
  by_cases h3 : k = "100_eth"
  · exact Or.inr (Or.inr h3)
  exfalso
  rw [TORNADO_CASH_POOLS] at h
  simp [lookupA, Ne.symm h1, Ne.symm h2, Ne.symm h3] at h

/-! ## Minimum / maximum helper lemmas over integer timestamp lists -/

instance : Std.Antisymm (fun x1 x2 : Int => x1 ≤ x2) :=
  ⟨fun h1 h2 => le_antisymm h1 h2⟩

theorem intMin?_eq_some_iff {xs : List Int} {a : Int} :
    xs.min? = some a ↔ a ∈ xs ∧ ∀ b ∈ xs, a ≤ b :=
  List.min?_eq_some_iff (fun a => le_refl a) (fun a b => min_choice a b)
    (fun _ _ _ => le_min_iff)

theorem intMax?_eq_some_iff {xs : List Int} {a : Int} :
    xs.max? = some a ↔ a ∈ xs ∧ ∀ b ∈ xs, b ≤ a :=
  List.max?_eq_some_iff (fun a => le_refl a) (fun a b => max_choice a b)
    (fun _ _ _ => max_le_iff)

theorem intMin?_perm {l1 l2 : List Int} (h : l1.Perm l2) : l1.min? = l2.min? := by
  cases e : l1.min? with
  | none =>
      rw [List.min?_eq_none_iff] at e
      subst e
      rw [h.symm.eq_nil]
      rfl
  | some a =>
      rw [intMin?_eq_some_iff] at e
      exact (intMin?_eq_some_iff.mpr
        ⟨h.mem_iff.mp e.1, fun b hb => e.2 b (h.mem_iff.mpr hb)⟩).symm

theorem intMax?_perm {l1 l2 : List Int} (h : l1.Perm l2) : l1.max? = l2.max? := by
  cases e : l1.max? with
  | none =>
      rw [List.max?_eq_none_iff] at e
      subst e
      rw [h.symm.eq_nil]
      rfl
  | some a =>
      rw [intMax?_eq_some_iff] at e
      exact (intMax?_eq_some_iff.mpr
        ⟨h.mem_iff.mp e.1, fun b hb => e.2 b (h.mem_iff.mpr hb)⟩).symm

theorem intMin?_isSome_of_ne_nil {l : List Int} (h : l ≠ []) : ∃ a, l.min? = some a := by
  cases l with
  | nil => exact absurd rfl h
  | cons x xs => exact ⟨xs.foldl min x, rfl⟩

theorem intMax?_isSome_of_ne_nil {l : List Int} (h : l ≠ []) : ∃ a, l.max? = some a := by
  cases l with
  | nil => exact absurd rfl h
  | cons x xs => exact ⟨xs.foldl max x, rfl⟩

theorem intMin?_le_max? {l : List Int} (h : l ≠ []) :
    ∃ a b, l.min? = some a ∧ l.max? = some b ∧ a ≤ b := by
  obtain ⟨a, ha⟩ := intMin?_isSome_of_ne_nil h
  obtain ⟨b, hb⟩ := intMax?_isSome_of_ne_nil h
  refine ⟨a, b, ha, hb, ?_⟩
  have hmem := (intMax?_eq_some_iff.mp hb).1
  exact (intMin?_eq_some_iff.mp ha).2 b hmem

/-! ## Helper lemmas about `analyze_tornado_cash` -/

theorem analyze_tornado_cash_ok (startResolve endResolve : Option (Except String Int))
    (fetchInternal fetchNormal : String → Int → Int → Except String (List RawTx))
    (selected_pools : Option (List String)) (sb eb : Int)
    (hs : startResolve = none ∧ sb = 0 ∨ startResolve = some (Except.ok sb))
    (he : endResolve = none ∧ eb = 99999999 ∨ endResolve = some (Except.ok eb)) :
    analyze_tornado_cash startResolve endResolve fetchInternal fetchNormal
        selected_pools =
      Except.ok (mergeResults
        (buildPoolResults (poolOutcome fetchInternal fetchNormal sb eb)
          (selected_pools.getD poolKeys))
        (selected_pools.getD poolKeys)) := by
  rcases hs with ⟨rfl, rfl⟩ | rfl <;> rcases he with ⟨rfl, rfl⟩ | rfl <;>
    simp [analyze_tornado_cash, Bind.bind, Except.bind, Functor.map, Except.map,
      pure, Except.pure]

theorem analyze_tornado_cash_ok_shape (startResolve endResolve : Option (Except String Int))
    (fetchInternal fetchNormal : String → Int → Int → Except String (List RawTx))
    (selected_pools : Option (List String)) (m : List (String × MergedRecord))
    (h : analyze_tornado_cash startResolve endResolve fetchInternal fetchNormal
        selected_pools = Except.ok m) :
    ∃ sb eb,
      (startResolve = none ∧ sb = 0 ∨ startResolve = some (Except.ok sb)) ∧
      (endResolve = none ∧ eb = 99999999 ∨ endResolve = some (Except.ok eb)) ∧
      m = mergeResults
        (buildPoolResults (poolOutcome fetchInternal fetchNormal sb eb)
          (selected_pools.getD poolKeys))
        (selected_pools.getD poolKeys) := by
  have hs : ∃ sb, startResolve = none ∧ sb = 0 ∨ startResolve = some (Except.ok sb) := by
    cases startResolve with
    | none => exact ⟨0, Or.inl ⟨rfl, rfl⟩⟩
    | some r =>
        cases r with
        | ok b => exact ⟨b, Or.inr rfl⟩
        | error e =>
            exfalso
            simp [analyze_tornado_cash, Bind.bind, Except.bind] at h
  obtain ⟨sb, hsb⟩ := hs
  have he : ∃ eb, endResolve = none ∧ eb = 99999999 ∨ endResolve = some (Except.ok eb) := by
    cases endResolve with
    | none => exact ⟨99999999, Or.inl ⟨rfl, rfl⟩⟩
    | some r =>
        cases r with
        | ok b => exact ⟨b, Or.inr rfl⟩
        | error e =>
            exfalso
            rcases hsb with ⟨rfl, rfl⟩ | rfl <;>
              simp [analyze_tornado_cash, Bind.bind, Except.bind, pure,
                Except.pure] at h
  obtain ⟨eb, heb⟩ := he
  refine ⟨sb, eb, hsb, heb, ?_⟩
  have := analyze_tornado_cash_ok startResolve endResolve fetchInternal fetchNormal
    selected_pools sb eb hsb heb
  rw [this] at h
  exact (Except.ok.inj h).symm

theorem analyze_tornado_cash_start_error (endResolve : Option (Except String Int))
    (fetchInternal fetchNormal : String → Int → Int → Except String (List RawTx))
    (selected_pools : Option (List String)) (e : String) :
    analyze_tornado_cash (some (Except.error e)) endResolve fetchInternal fetchNormal
      selected_pools = Except.error e := by
  simp [analyze_tornado_cash, Bind.bind, Except.bind]

theorem analyze_tornado_cash_end_error (startResolve : Option (Except String Int))
    (fetchInternal fetchNormal : String → Int → Int → Except String (List RawTx))
    (selected_pools : Option (List String)) (sb : Int) (e : String)
    (hs : startResolve = none ∧ sb = 0 ∨ startResolve = some (Except.ok sb)) :
    analyze_tornado_cash startResolve (some (Except.error e)) fetchInternal fetchNormal
      selected_pools = Except.error e := by
  rcases hs with ⟨rfl, rfl⟩ | rfl <;>
    simp [analyze_tornado_cash, Bind.bind, Except.bind, pure, Except.pure]

/-- Every stat stored anywhere in the `pool_results` dict built by the
pipeline satisfies the positivity invariant. -/
theorem statPos_pipeline
    (fetchInternal fetchNormal : String → Int → Int → Except String (List RawTx))
    (sb eb : Int) (selected : List String) (k : String) (pm : RecipientMap)
    (hk : lookupA (buildPoolResults (poolOutcome fetchInternal fetchNormal sb eb)
        selected) k = some pm) :
    ∀ r s, lookupA pm r = some s → StatPos s := by
  rw [lookupA_buildPoolResults] at hk
  by_cases hc : k ∈ selected ∧ (lookupA TORNADO_CASH_POOLS k).isSome
  · rw [if_pos hc] at hk
    cases ho : poolOutcome fetchInternal fetchNormal sb eb k with
    | ok results =>
        rw [ho] at hk
        cases hkn : lookupA TORNADO_CASH_POOLS k with
        | none =>
            rw [hkn] at hc
            simp at hc
        | some addr =>
            rw [poolOutcome, hkn] at ho
            obtain ⟨internal_txs, normal_txs, _, _, hagg⟩ :=
              analyze_pool_ok_shape _ _ _ _ ho
            obtain rfl : results = pm := Option.some_injective _ hk
            rw [hagg]
            exact statPos_aggregate _ _ _
    | error e =>
        rw [ho] at hk
        obtain rfl : ([] : RecipientMap) = pm := Option.some_injective _ hk
        intro r s hs
        simp [lookupA] at hs
  · rw [if_neg hc] at hk
    exact absurd hk (by simp)

/-! ## Witness fixtures: a one-transaction run over the 10 ETH pool -/

/-- A withdrawal transaction of the 10 ETH pool used by witnesses. -/
def txw10 : RawTx :=
  ⟨"0x910cbd523d972eb0a6f4cae4618ad62622b39dbf", some "0xRecipA", 5, 100, "hw"⟩

/-- Witness internal-transaction fetcher: one withdrawal everywhere. -/
def fetchIw : String → Int → Int → Except String (List RawTx) :=
  fun _ _ _ => Except.ok [txw10]

/-- Witness normal-transaction fetcher: no transactions. -/
def fetchNw : String → Int → Int → Except String (List RawTx) :=
  fun _ _ _ => Except.ok []

/-- Witness pool-results dict for a `10_eth`-only run. -/
def prW : PoolResults := buildPoolResults (poolOutcome fetchIw fetchNw 0 99999999) ["10_eth"]

/-- Witness merged map for a `10_eth`-only run. -/
def mW : List (String × MergedRecord) := mergeResults prW ["10_eth"]

/-- C3: for every recipient of a successful `analyze_tornado_cash` run,
`grand_total` equals the sum of the three per-pool totals, and the total
of every pool the recipient is not present in is zero — so `grand_total`
is exactly the sum of the per-pool totals of the pools the recipient is
present in.  Totals are exact rationals, so the floating-point tolerance
of the wei-to-ETH conversion is not needed. -/
theorem C3_grand_total_eq_sum (startResolve endResolve : Option (Except String Int))
    (fetchInternal fetchNormal : String → Int → Int → Except String (List RawTx))
    (selected_pools : Option (List String)) (m : List (String × MergedRecord))
    (h : analyze_tornado_cash startResolve endResolve fetchInternal fetchNormal
        selected_pools = Except.ok m) :
    ∃ pr selected, selected = selected_pools.getD poolKeys ∧
      m = mergeResults pr selected ∧
      ∀ addr r, lookupA m addr = some r →
        r.grand_total = r.total_1eth + r.total_10eth + r.total_100eth ∧
        (statFor pr selected "1_eth" addr = none → r.total_1eth = 0) ∧
        (statFor pr selected "10_eth" addr = none → r.total_10eth = 0) ∧
        (statFor pr selected "100_eth" addr = none → r.total_100eth = 0) := by
  obtain ⟨sb, eb, _, _, rfl⟩ := analyze_tornado_cash_ok_shape _ _ _ _ _ _ h
  refine ⟨_, _, rfl, rfl, ?_⟩
  intro addr r hl
  rw [lookupA_mergeResults] at hl
  by_cases hmem : addr ∈ allAddresses
      (buildPoolResults (poolOutcome fetchInternal fetchNormal sb eb)
        (selected_pools.getD poolKeys))
      (selected_pools.getD poolKeys)
  · rw [if_pos hmem] at hl
    obtain rfl : mergeRecord _ _ addr = r := Option.some_injective _ hl
    refine ⟨rfl, ?_, ?_, ?_⟩ <;> intro hnone <;>
      simp [mergeRecord, hnone, poolTotal]
  · rw [if_neg hmem] at hl
    exact absurd hl (by simp)

/-- C3 witness: the one-transaction `10_eth`-only run. -/
theorem C3_witness :
    (analyze_tornado_cash none none fetchIw fetchNw (some ["10_eth"]) = Except.ok mW)
    ∧ (∃ pr selected, selected = (some ["10_eth"]).getD poolKeys ∧
        mW = mergeResults pr selected ∧
        ∀ addr r, lookupA mW addr = some r →
          r.grand_total = r.total_1eth + r.total_10eth + r.total_100eth ∧
          (statFor pr selected "1_eth" addr = none → r.total_1eth = 0) ∧
          (statFor pr selected "10_eth" addr = none → r.total_10eth = 0) ∧
          (statFor pr selected "100_eth" addr = none → r.total_100eth = 0)) :=
  ⟨rfl, C3_grand_total_eq_sum none none fetchIw fetchNw (some ["10_eth"]) mW rfl⟩

/-- C4: for every recipient of a successful run, each pool's first/last
date is the min/max of that pool's transaction timestamps for the
recipient (`none` when the recipient has no transactions in that pool,
including when the pool is unselected), the aggregate first/last date is
the min/max over the concatenation of all the recipient's per-pool
timestamps, and a recipient present only in the 10 ETH pool has `none`
1 ETH and 100 ETH dates and aggregate dates equal to its 10 ETH dates. -/
theorem C4_dates (startResolve endResolve : Option (Except String Int))
    (fetchInternal fetchNormal : String → Int → Int → Except String (List RawTx))
    (selected_pools : Option (List String)) (m : List (String × MergedRecord))
    (h : analyze_tornado_cash startResolve endResolve fetchInternal fetchNormal
        selected_pools = Except.ok m) :
    ∃ pr selected, selected = selected_pools.getD poolKeys ∧
      m = mergeResults pr selected ∧
      ∀ addr r, lookupA m addr = some r →
        (∀ d, statFor pr selected "1_eth" addr = some d →
          r.first_date_1eth = (timestampsOf d).min? ∧
          r.last_date_1eth = (timestampsOf d).max?) ∧
        (statFor pr selected "1_eth" addr = none →
          r.first_date_1eth = none ∧ r.last_date_1eth = none) ∧
        (∀ d, statFor pr selected "10_eth" addr = some d →
          r.first_date_10eth = (timestampsOf d).min? ∧
          r.last_date_10eth = (timestampsOf d).max?) ∧
        (statFor pr selected "10_eth" addr = none →
          r.first_date_10eth = none ∧ r.last_date_10eth = none) ∧
        (∀ d, statFor pr selected "100_eth" addr = some d →
          r.first_date_100eth = (timestampsOf d).min? ∧
          r.last_date_100eth = (timestampsOf d).max?) ∧
        (statFor pr selected "100_eth" addr = none →
          r.first_date_100eth = none ∧ r.last_date_100eth = none) ∧
        r.first_date = (contribTs (statFor pr selected "1_eth" addr) ++
          contribTs (statFor pr selected "10_eth" addr) ++
          contribTs (statFor pr selected "100_eth" addr)).min? ∧
        r.last_date = (contribTs (statFor pr selected "1_eth" addr) ++
          contribTs (statFor pr selected "10_eth" addr) ++
          contribTs (statFor pr selected "100_eth" addr)).max? ∧
        (statFor pr selected "1_eth" addr = none →
         statFor pr selected "100_eth" addr = none →
          r.first_date = r.first_date_10eth ∧ r.last_date = r.last_date_10eth) := by
  obtain ⟨sb, eb, _, _, rfl⟩ := analyze_tornado_cash_ok_shape _ _ _ _ _ _ h
  refine ⟨_, _, rfl, rfl, ?_⟩
  intro addr r hl
  rw [lookupA_mergeResults] at hl
  by_cases hmem : addr ∈ allAddresses
      (buildPoolResults (poolOutcome fetchInternal fetchNormal sb eb)
        (selected_pools.getD poolKeys))
      (selected_pools.getD poolKeys)
  · rw [if_pos hmem] at hl
    obtain rfl : mergeRecord _ _ addr = r := Option.some_injective _ hl
    refine ⟨?_, ?_, ?_, ?_, ?_, ?_, rfl, rfl, ?_⟩
    · intro d hd
      exact ⟨by simp [mergeRecord, hd, contribTs], by simp [mergeRecord, hd, contribTs]⟩
    · intro hnone
      exact ⟨by simp [mergeRecord, hnone, contribTs],
        by simp [mergeRecord, hnone, contribTs]⟩
    · intro d hd
      exact ⟨by simp [mergeRecord, hd, contribTs], by simp [mergeRecord, hd, contribTs]⟩
    · intro hnone
      exact ⟨by simp [mergeRecord, hnone, contribTs],
        by simp [mergeRecord, hnone, contribTs]⟩
    · intro d hd
      exact ⟨by simp [mergeRecord, hd, contribTs], by simp [mergeRecord, hd, contribTs]⟩
    · intro hnone
      exact ⟨by simp [mergeRecord, hnone, contribTs],
        by simp [mergeRecord, hnone, contribTs]⟩
    · intro h1 h100
      exact ⟨by simp [mergeRecord, h1, h100, contribTs],
        by simp [mergeRecord, h1, h100, contribTs]⟩
  · rw [if_neg hmem] at hl
    exact absurd hl (by simp)

/-- C4 witness: the one-transaction `10_eth`-only run, whose single
recipient is present only in the 10 ETH pool. -/
theorem C4_witness :
    (analyze_tornado_cash none none fetchIw fetchNw (some ["10_eth"]) = Except.ok mW)
    ∧ (∃ pr selected, selected = (some ["10_eth"]).getD poolKeys ∧
        mW = mergeResults pr selected ∧
        ∀ addr r, lookupA mW addr = some r →
          (∀ d, statFor pr selected "1_eth" addr = some d →
            r.first_date_1eth = (timestampsOf d).min? ∧
            r.last_date_1eth = (timestampsOf d).max?) ∧
          (statFor pr selected "1_eth" addr = none →
            r.first_date_1eth = none ∧ r.last_date_1eth = none) ∧
          (∀ d, statFor pr selected "10_eth" addr = some d →
            r.first_date_10eth = (timestampsOf d).min? ∧
            r.last_date_10eth = (timestampsOf d).max?) ∧
          (statFor pr selected "10_eth" addr = none →
            r.first_date_10eth = none ∧ r.last_date_10eth = none) ∧
          (∀ d, statFor pr selected "100_eth" addr = some d →
            r.first_date_100eth = (timestampsOf d).min? ∧
            r.last_date_100eth = (timestampsOf d).max?) ∧
          (statFor pr selected "100_eth" addr = none →
            r.first_date_100eth = none ∧ r.last_date_100eth = none) ∧
          r.first_date = (contribTs (statFor pr selected "1_eth" addr) ++
            contribTs (statFor pr selected "10_eth" addr) ++
            contribTs (statFor pr selected "100_eth" addr)).min? ∧
          r.last_date = (contribTs (statFor pr selected "1_eth" addr) ++
            contribTs (statFor pr selected "10_eth" addr) ++
            contribTs (statFor pr selected "100_eth" addr)).max? ∧
          (statFor pr selected "1_eth" addr = none →
           statFor pr selected "100_eth" addr = none →
            r.first_date = r.first_date_10eth ∧ r.last_date = r.last_date_10eth)) :=
  ⟨rfl, C4_dates none none fetchIw fetchNw (some ["10_eth"]) mW rfl⟩

/-- C10: per-pool fields of pools outside the selected list keep their
initialized values (count 0, total 0, dates `none`); `grand_total` is
always the sum of all three per-pool totals, and since unselected pools
contribute 0 it equals the sum over selected pools only. -/
theorem C10_frame_unselected_pools (startResolve endResolve : Option (Except String Int))
    (fetchInternal fetchNormal : String → Int → Int → Except String (List RawTx))
    (selected_pools : Option (List String)) (m : List (String × MergedRecord))
    (h : analyze_tornado_cash startResolve endResolve fetchInternal fetchNormal
        selected_pools = Except.ok m) :
    ∃ selected, selected = selected_pools.getD poolKeys ∧
      ∀ addr r, lookupA m addr = some r →
        ("1_eth" ∉ selected → r.count_1eth = 0 ∧ r.total_1eth = 0 ∧
          r.first_date_1eth = none ∧ r.last_date_1eth = none) ∧
        ("10_eth" ∉ selected → r.count_10eth = 0 ∧ r.total_10eth = 0 ∧
          r.first_date_10eth = none ∧ r.last_date_10eth = none) ∧
        ("100_eth" ∉ selected → r.count_100eth = 0 ∧ r.total_100eth = 0 ∧
          r.first_date_100eth = none ∧ r.last_date_100eth = none) ∧
        r.grand_total = (if "1_eth" ∈ selected then r.total_1eth else 0) +
          (if "10_eth" ∈ selected then r.total_10eth else 0) +
          (if "100_eth" ∈ selected then r.total_100eth else 0) := by
  obtain ⟨sb, eb, _, _, rfl⟩ := analyze_tornado_cash_ok_shape _ _ _ _ _ _ h
  refine ⟨_, rfl, ?_⟩
  intro addr r hl
  rw [lookupA_mergeResults] at hl
  by_cases hmem : addr ∈ allAddresses
      (buildPoolResults (poolOutcome fetchInternal fetchNormal sb eb)
        (selected_pools.getD poolKeys))
      (selected_pools.getD poolKeys)
  · rw [if_pos hmem] at hl
    obtain rfl : mergeRecord _ _ addr = r := Option.some_injective _ hl
    refine ⟨?_, ?_, ?_, ?_⟩
    · intro hno
      refine ⟨?_, ?_, ?_, ?_⟩ <;>
        simp [mergeRecord, statFor, hno, poolCount, poolTotal, contribTs]
    · intro hno
      refine ⟨?_, ?_, ?_, ?_⟩ <;>
        simp [mergeRecord, statFor, hno, poolCount, poolTotal, contribTs]
    · intro hno
      refine ⟨?_, ?_, ?_, ?_⟩ <;>
        simp [mergeRecord, statFor, hno, poolCount, poolTotal, contribTs]
    · by_cases m1 : "1_eth" ∈ selected_pools.getD poolKeys <;>
        by_cases m10 : "10_eth" ∈ selected_pools.getD poolKeys <;>
          by_cases m100 : "100_eth" ∈ selected_pools.getD poolKeys <;>
            simp [mergeRecord, statFor, m1, m10, m100, poolTotal]
  · rw [if_neg hmem] at hl
    exact absurd hl (by simp)

/-- C10 witness: the `10_eth`-only run; the 1 ETH and 100 ETH fields of
its recipient keep their initialized values. -/
theorem C10_witness :
    (analyze_tornado_cash none none fetchIw fetchNw (some ["10_eth"]) = Except.ok mW)
    ∧ (∃ selected, selected = (some ["10_eth"]).getD poolKeys ∧
        ∀ addr r, lookupA mW addr = some r →
          ("1_eth" ∉ selected → r.count_1eth = 0 ∧ r.total_1eth = 0 ∧
            r.first_date_1eth = none ∧ r.last_date_1eth = none) ∧
          ("10_eth" ∉ selected → r.count_10eth = 0 ∧ r.total_10eth = 0 ∧
            r.first_date_10eth = none ∧ r.last_date_10eth = none) ∧
          ("100_eth" ∉ selected → r.count_100eth = 0 ∧ r.total_100eth = 0 ∧
            r.first_date_100eth = none ∧ r.last_date_100eth = none) ∧
          r.grand_total = (if "1_eth" ∈ selected then r.total_1eth else 0) +
            (if "10_eth" ∈ selected then r.total_10eth else 0) +
            (if "100_eth" ∈ selected then r.total_100eth else 0)) :=
  ⟨rfl, C10_frame_unselected_pools none none fetchIw fetchNw (some ["10_eth"]) mW rfl⟩

/-- Witness fetcher whose every call raises. -/
def fetchEw : String → Int → Int → Except String (List RawTx) :=
  fun _ _ _ => Except.error "boom"

/-- C6: when both block resolutions succeed, `analyze_tornado_cash`
returns `Except.ok` of the merge — so an exception inside one pool's
`analyze_pool` never aborts the run — and a pool whose analysis raised
is degraded to the empty mapping in `pool_results`; an exception raised
during date-to-block resolution is not caught and aborts the whole
analysis with that error. -/
theorem C6_error_handling :
    (∀ (startResolve endResolve : Option (Except String Int))
        (fetchInternal fetchNormal : String → Int → Int → Except String (List RawTx))
        (selected_pools : Option (List String)) (sb eb : Int),
      (startResolve = none ∧ sb = 0 ∨ startResolve = some (Except.ok sb)) →
      (endResolve = none ∧ eb = 99999999 ∨ endResolve = some (Except.ok eb)) →
      analyze_tornado_cash startResolve endResolve fetchInternal fetchNormal
          selected_pools =
        Except.ok (mergeResults
          (buildPoolResults (poolOutcome fetchInternal fetchNormal sb eb)
            (selected_pools.getD poolKeys))
          (selected_pools.getD poolKeys)) ∧
      (∀ k e, k ∈ selected_pools.getD poolKeys →
        (lookupA TORNADO_CASH_POOLS k).isSome →
        poolOutcome fetchInternal fetchNormal sb eb k = Except.error e →
        lookupA (buildPoolResults (poolOutcome fetchInternal fetchNormal sb eb)
          (selected_pools.getD poolKeys)) k = some []))
    ∧ (∀ (endResolve : Option (Except String Int))
        (fetchInternal fetchNormal : String → Int → Int → Except String (List RawTx))
        (selected_pools : Option (List String)) (e : String),
        analyze_tornado_cash (some (Except.error e)) endResolve fetchInternal
          fetchNormal selected_pools = Except.error e)
    ∧ (∀ (startResolve : Option (Except String Int))
        (fetchInternal fetchNormal : String → Int → Int → Except String (List RawTx))
        (selected_pools : Option (List String)) (sb : Int) (e : String),
        (startResolve = none ∧ sb = 0 ∨ startResolve = some (Except.ok sb)) →
        analyze_tornado_cash startResolve (some (Except.error e)) fetchInternal
          fetchNormal selected_pools = Except.error e) := by
  refine ⟨?_, ?_, ?_⟩
  · intro startR endR fI fN sel sb eb hs he
    refine ⟨analyze_tornado_cash_ok _ _ _ _ _ _ _ hs he, ?_⟩
    intro k e hk hkn herr
    rw [lookupA_buildPoolResults, if_pos ⟨hk, hkn⟩, herr]
  · intro endR fI fN sel e
    exact analyze_tornado_cash_start_error _ _ _ _ _
  · intro startR fI fN sel sb e hs
    exact analyze_tornado_cash_end_error _ _ _ _ _ _ hs

/-- C6 witness: a run whose every fetch raises still returns `ok` with
the failing pool degraded to the empty mapping, while a failing block
resolution aborts with its error. -/
theorem C6_witness :
    (analyze_tornado_cash none none fetchEw fetchNw (some ["10_eth"]) =
      Except.ok (mergeResults
        (buildPoolResults (poolOutcome fetchEw fetchNw 0 99999999) ["10_eth"])
        ["10_eth"])
      ∧ lookupA (buildPoolResults (poolOutcome fetchEw fetchNw 0 99999999)
          ["10_eth"]) "10_eth" = some [])
    ∧ analyze_tornado_cash (some (Except.error "resolve failed")) none fetchIw
        fetchNw (some ["10_eth"]) = Except.error "resolve failed" :=
  ⟨⟨(C6_error_handling.1 none none fetchEw fetchNw (some ["10_eth"]) 0 99999999
      (Or.inl ⟨rfl, rfl⟩) (Or.inl ⟨rfl, rfl⟩)).1,
    (C6_error_handling.1 none none fetchEw fetchNw (some ["10_eth"]) 0 99999999
      (Or.inl ⟨rfl, rfl⟩) (Or.inl ⟨rfl, rfl⟩)).2 "10_eth" "boom" (by simp)
      (by decide) rfl⟩,
   C6_error_handling.2.1 none fetchIw fetchNw (some ["10_eth"]) "resolve failed"⟩

/-! ## Order-insensitivity infrastructure for C7 -/

/-- Two per-recipient stats that agree up to the arrival order of their
transactions. -/
def StatEquiv (a b : PoolStat) : Prop :=
  a.count = b.count ∧ a.total_wei = b.total_wei ∧ a.transactions.Perm b.transactions

/-- Lifting of `StatEquiv` to optional stats (presence must agree). -/
def OptStatEquiv : Option PoolStat → Option PoolStat → Prop
  | none, none => True
  | some a, some b => StatEquiv a b
  | _, _ => False

theorem lookupA_addTx_isSome (pool kind : String) (m : RecipientMap) (tx : RawTx)
    (r : String) :
    (lookupA (addTx pool kind m tx) r).isSome ↔
      (lookupA m r).isSome ∨ (isWithdrawal pool tx && (bucketOf tx == r)) = true := by
  by_cases hw : isWithdrawal pool tx
  · by_cases hb : bucketOf tx = r
    · subst hb
      simp [addTx, hw, lookupA_updateA]
    · simp [addTx, hw, lookupA_updateA, hb, Ne.symm hb]
  · simp [addTx, hw]

theorem lookupA_foldl_isSome (pool kind : String) (txs : List RawTx) :
    ∀ (m : RecipientMap) (r : String),
      (lookupA (txs.foldl (addTx pool kind) m) r).isSome ↔
        (lookupA m r).isSome ∨
          (txs.filter fun tx => isWithdrawal pool tx && (bucketOf tx == r)) ≠ [] := by
  induction txs with
  | nil => simp
  | cons tx txs ih =>
      intro m r
      rw [List.foldl_cons, ih, lookupA_addTx_isSome, List.filter_cons]
      by_cases h : (isWithdrawal pool tx && (bucketOf tx == r)) = true
      · simp [h]
      · simp [h]

theorem lookupA_aggregate_isSome (pool : String) (internal_txs normal_txs : List RawTx)
    (r : String) :
    (lookupA (aggregate_withdrawals pool internal_txs normal_txs) r).isSome ↔
      retainedFor pool r internal_txs normal_txs ≠ [] := by
  rw [aggregate_withdrawals, lookupA_foldl_isSome, lookupA_foldl_isSome, retainedFor]
  constructor
  · rintro ((h | hN) | hI)
    · simp [lookupA] at h
    · intro hc
      apply hN
      have := List.append_eq_nil.mp hc
      simpa using this.1
    · intro hc
      apply hI
      have := List.append_eq_nil.mp hc
      simpa using this.2
  · intro hne
    by_cases hn :
        (normal_txs.filter fun tx => isWithdrawal pool tx && (bucketOf tx == r)) = []
    · by_cases hi :
          (internal_txs.filter fun tx => isWithdrawal pool tx && (bucketOf tx == r)) = []
      · exact absurd (by rw [hn, hi]; simp) hne
      · exact Or.inr hi
    · exact Or.inl (Or.inr hn)

theorem lookupA_aggregate_some (pool : String) (internal_txs normal_txs : List RawTx)
    (r : String) (s : PoolStat)
    (h : lookupA (aggregate_withdrawals pool internal_txs normal_txs) r = some s) :
    s.count = (retainedFor pool r internal_txs normal_txs).length ∧
    s.total_wei =
      ((retainedFor pool r internal_txs normal_txs).map (fun t => t.value_wei)).sum ∧
    s.transactions = retainedFor pool r internal_txs normal_txs := by
  have hc := countFor_aggregate pool r internal_txs normal_txs
  have ht := txsFor_aggregate pool r internal_txs normal_txs
  have hw := totalFor_aggregate pool r internal_txs normal_txs
  rw [countFor, h, Option.getD_some] at hc
  rw [txsFor, h, Option.getD_some] at ht
  rw [totalFor, h, Option.getD_some] at hw
  exact ⟨hc, hw, ht⟩

theorem poolCount_equiv {s1 s2 : Option PoolStat} (h : OptStatEquiv s1 s2) :
    poolCount s1 = poolCount s2 := by
  cases s1 with
  | none =>
      cases s2 with
      | none => rfl
      | some b => exact absurd h (by simp [OptStatEquiv])
  | some a =>
      cases s2 with
      | none => exact absurd h (by simp [OptStatEquiv])
      | some b => exact h.1

theorem poolTotal_equiv {s1 s2 : Option PoolStat} (h : OptStatEquiv s1 s2) :
    poolTotal s1 = poolTotal s2 := by
  cases s1 with
  | none =>
      cases s2 with
      | none => rfl
      | some b => exact absurd h (by simp [OptStatEquiv])
  | some a =>
      cases s2 with
      | none => exact absurd h (by simp [OptStatEquiv])
      | some b =>
          show (a.total_wei : ℚ) / WEI_TO_ETH = (b.total_wei : ℚ) / WEI_TO_ETH
          rw [h.2.1]

theorem contribTs_perm {s1 s2 : Option PoolStat} (h : OptStatEquiv s1 s2) :
    (contribTs s1).Perm (contribTs s2) := by
  cases s1 with
  | none =>
      cases s2 with
      | none => exact List.Perm.refl _
      | some b => exact absurd h (by simp [OptStatEquiv])
  | some a =>
      cases s2 with
      | none => exact absurd h (by simp [OptStatEquiv])
      | some b => exact h.2.2.map (fun t => t.timestamp)

theorem mergeRecord_eq_of_equiv (pr1 pr2 : PoolResults) (selected : List String)
    (addr : String)
    (h1 : OptStatEquiv (statFor pr1 selected "1_eth" addr)
      (statFor pr2 selected "1_eth" addr))
    (h10 : OptStatEquiv (statFor pr1 selected "10_eth" addr)
      (statFor pr2 selected "10_eth" addr))
    (h100 : OptStatEquiv (statFor pr1 selected "100_eth" addr)
      (statFor pr2 selected "100_eth" addr)) :
    mergeRecord pr1 selected addr = mergeRecord pr2 selected addr := by
  have hts : ((contribTs (statFor pr1 selected "1_eth" addr) ++
      contribTs (statFor pr1 selected "10_eth" addr)) ++
      contribTs (statFor pr1 selected "100_eth" addr)).Perm
      ((contribTs (statFor pr2 selected "1_eth" addr) ++
      contribTs (statFor pr2 selected "10_eth" addr)) ++
      contribTs (statFor pr2 selected "100_eth" addr)) :=
    ((contribTs_perm h1).append (contribTs_perm h10)).append (contribTs_perm h100)
  simp only [mergeRecord, MergedRecord.mk.injEq]
  refine ⟨poolCount_equiv h1, poolTotal_equiv h1,
    intMin?_perm (contribTs_perm h1), intMax?_perm (contribTs_perm h1),
    poolCount_equiv h10, poolTotal_equiv h10,
    intMin?_perm (contribTs_perm h10), intMax?_perm (contribTs_perm h10),
    poolCount_equiv h100, poolTotal_equiv h100,
    intMin?_perm (contribTs_perm h100), intMax?_perm (contribTs_perm h100),
    by rw [poolTotal_equiv h1, poolTotal_equiv h10, poolTotal_equiv h100],
    intMin?_perm hts, intMax?_perm hts⟩

/-- C7: the merge is deterministic with respect to arrival order:
(a) permuting the fetched internal and normal transaction lists of a
pool leaves every recipient's aggregated stat unchanged up to the order
of its stored transaction list (same count, same cumulative wei), and
(b) per-pool results that agree up to such reordering (for every pool
key and recipient) produce an identical recipient-to-record mapping,
because counts, totals, grand totals and first/last dates are computed
with order-independent numeric sum/min/max. -/
theorem C7_deterministic_merge :
    (∀ (pool : String) (int1 int2 nor1 nor2 : List RawTx),
      int1.Perm int2 → nor1.Perm nor2 →
      ∀ r, OptStatEquiv (lookupA (aggregate_withdrawals pool int1 nor1) r)
        (lookupA (aggregate_withdrawals pool int2 nor2) r))
    ∧ (∀ (pr1 pr2 : PoolResults) (selected : List String),
      (∀ k addr, OptStatEquiv (statFor pr1 selected k addr)
        (statFor pr2 selected k addr)) →
      ∀ addr, lookupA (mergeResults pr1 selected) addr =
        lookupA (mergeResults pr2 selected) addr) := by
  constructor
  · intro pool int1 int2 nor1 nor2 hI hN r
    have hperm : (retainedFor pool r int1 nor1).Perm (retainedFor pool r int2 nor2) :=
      ((hN.filter _).map _).append ((hI.filter _).map _)
    cases e1 : lookupA (aggregate_withdrawals pool int1 nor1) r with
    | none =>
        cases e2 : lookupA (aggregate_withdrawals pool int2 nor2) r with
        | none => trivial
        | some b =>
            exfalso
            have h2 : retainedFor pool r int2 nor2 ≠ [] :=
              (lookupA_aggregate_isSome pool int2 nor2 r).mp (by simp [e2])
            have h1 : retainedFor pool r int1 nor1 = [] := by
              by_contra hne
              have := (lookupA_aggregate_isSome pool int1 nor1 r).mpr hne
              simp [e1] at this
            rw [h1] at hperm
            exact h2 hperm.symm.eq_nil
    | some a =>
        cases e2 : lookupA (aggregate_withdrawals pool int2 nor2) r with
        | none =>
            exfalso
            have h1 : retainedFor pool r int1 nor1 ≠ [] :=
              (lookupA_aggregate_isSome pool int1 nor1 r).mp (by simp [e1])
            have h2 : retainedFor pool r int2 nor2 = [] := by
              by_contra hne
              have := (lookupA_aggregate_isSome pool int2 nor2 r).mpr hne
              simp [e2] at this
            rw [h2] at hperm
            exact h1 hperm.eq_nil
        | some b =>
            show StatEquiv a b
            obtain ⟨hc1, hw1, ht1⟩ := lookupA_aggregate_some _ _ _ _ _ e1
            obtain ⟨hc2, hw2, ht2⟩ := lookupA_aggregate_some _ _ _ _ _ e2
            refine ⟨?_, ?_, ?_⟩
            · rw [hc1, hc2, hperm.length_eq]
            · rw [hw1, hw2, (hperm.map _).sum_eq]
            · rw [ht1, ht2]
              exact hperm
  · intro pr1 pr2 selected hequiv addr
    have hmem : addr ∈ allAddresses pr1 selected ↔ addr ∈ allAddresses pr2 selected := by
      rw [mem_allAddresses, mem_allAddresses]
      constructor
      · rintro ⟨k, hk, hsome⟩
        refine ⟨k, hk, ?_⟩
        have h := hequiv k addr
        simp only [statFor, if_pos hk] at h
        cases el1 : lookupA ((lookupA pr1 k).getD []) addr with
        | none =>
            rw [el1] at hsome
            simp at hsome
        | some a =>
            rw [el1] at h
            cases el2 : lookupA ((lookupA pr2 k).getD []) addr with
            | none =>
                rw [el2] at h
                exact absurd h (by simp [OptStatEquiv])
            | some b => simp
      · rintro ⟨k, hk, hsome⟩
        refine ⟨k, hk, ?_⟩
        have h := hequiv k addr
        simp only [statFor, if_pos hk] at h
        cases el2 : lookupA ((lookupA pr2 k).getD []) addr with
        | none =>
            rw [el2] at hsome
            simp at hsome
        | some b =>
            rw [el2] at h
            cases el1 : lookupA ((lookupA pr1 k).getD []) addr with
            | none =>
                rw [el1] at h
                exact absurd h (by simp [OptStatEquiv])
            | some a => simp
    rw [lookupA_mergeResults, lookupA_mergeResults]
    by_cases hm : addr ∈ allAddresses pr1 selected
    · rw [if_pos hm, if_pos (hmem.mp hm)]
      exact congrArg some (mergeRecord_eq_of_equiv pr1 pr2 selected addr
        (hequiv _ _) (hequiv _ _) (hequiv _ _))
    · rw [if_neg hm, if_neg (fun hc => hm (hmem.mpr hc))]

/-- C7 witness: two arrival orders of the same two withdrawals yield
equivalent stats for their recipient. -/
theorem C7_witness :
    (([(⟨"0xp", some "0xa", 3, 10, "h1"⟩ : RawTx),
       (⟨"0xp", some "0xa", 4, 20, "h2"⟩ : RawTx)]).Perm
      [(⟨"0xp", some "0xa", 4, 20, "h2"⟩ : RawTx),
       (⟨"0xp", some "0xa", 3, 10, "h1"⟩ : RawTx)])
    ∧ (([] : List RawTx).Perm ([] : List RawTx))
    ∧ OptStatEquiv
        (lookupA (aggregate_withdrawals "0xp"
          [(⟨"0xp", some "0xa", 3, 10, "h1"⟩ : RawTx),
           (⟨"0xp", some "0xa", 4, 20, "h2"⟩ : RawTx)] []) "0xa")
        (lookupA (aggregate_withdrawals "0xp"
          [(⟨"0xp", some "0xa", 4, 20, "h2"⟩ : RawTx),
           (⟨"0xp", some "0xa", 3, 10, "h1"⟩ : RawTx)] []) "0xa") :=
  ⟨by decide, by decide,
    C7_deterministic_merge.1 "0xp"
      [(⟨"0xp", some "0xa", 3, 10, "h1"⟩ : RawTx),
       (⟨"0xp", some "0xa", 4, 20, "h2"⟩ : RawTx)]
      [(⟨"0xp", some "0xa", 4, 20, "h2"⟩ : RawTx),
       (⟨"0xp", some "0xa", 3, 10, "h1"⟩ : RawTx)] [] []
      (by decide) (by decide) "0xa"⟩

/-! ## Positivity and date facts for merged pipeline records -/

theorem statFor_pipeline_statPos
    (fetchInternal fetchNormal : String → Int → Int → Except String (List RawTx))
    (sb eb : Int) (selected : List String) (key addr : String) (d : PoolStat)
    (h : statFor (buildPoolResults (poolOutcome fetchInternal fetchNormal sb eb)
        selected) selected key addr = some d) : StatPos d := by
  rw [statFor] at h
  by_cases hk : key ∈ selected
  · rw [if_pos hk] at h
    cases hpm : lookupA (buildPoolResults (poolOutcome fetchInternal fetchNormal sb eb)
        selected) key with
    | none =>
        rw [hpm] at h
        simp [lookupA] at h
    | some pm =>
        rw [hpm] at h
        exact statPos_pipeline fetchInternal fetchNormal sb eb selected key pm hpm
          addr d (by simpa using h)
  · rw [if_neg hk] at h
    exact absurd h (by simp)

theorem poolTotal_pos_of_statPos {d : PoolStat} (h : StatPos d) :
    0 < poolTotal (some d) := by
  have h1 : (1 : Int) ≤ d.total_wei := h.2.1
  show (0 : ℚ) < (d.total_wei : ℚ) / WEI_TO_ETH
  apply div_pos
  · exact_mod_cast lt_of_lt_of_le zero_lt_one h1
  · rw [WEI_TO_ETH]
    positivity

theorem poolTotal_pipeline_nonneg
    (fetchInternal fetchNormal : String → Int → Int → Except String (List RawTx))
    (sb eb : Int) (selected : List String) (key addr : String) :
    0 ≤ poolTotal (statFor (buildPoolResults (poolOutcome fetchInternal fetchNormal
        sb eb) selected) selected key addr) := by
  cases h : statFor (buildPoolResults (poolOutcome fetchInternal fetchNormal sb eb)
      selected) selected key addr with
  | none => simp [poolTotal]
  | some d =>
      exact le_of_lt (poolTotal_pos_of_statPos
        (statFor_pipeline_statPos fetchInternal fetchNormal sb eb selected key addr d h))

theorem merged_entry_facts
    (fetchInternal fetchNormal : String → Int → Int → Except String (List RawTx))
    (sb eb : Int) (selected : List String) (addr : String)
    (hmem : addr ∈ allAddresses
      (buildPoolResults (poolOutcome fetchInternal fetchNormal sb eb) selected)
      selected) :
    (∃ k ∈ selected, ∃ d,
      statFor (buildPoolResults (poolOutcome fetchInternal fetchNormal sb eb)
        selected) selected k addr = some d ∧ d.transactions ≠ []) ∧
    0 < (mergeRecord (buildPoolResults (poolOutcome fetchInternal fetchNormal sb eb)
      selected) selected addr).grand_total ∧
    (∃ f l,
      (mergeRecord (buildPoolResults (poolOutcome fetchInternal fetchNormal sb eb)
        selected) selected addr).first_date = some f ∧
      (mergeRecord (buildPoolResults (poolOutcome fetchInternal fetchNormal sb eb)
        selected) selected addr).last_date = some l ∧ f ≤ l) := by
  obtain ⟨k, hk, hsome⟩ := (mem_allAddresses _ _ _).mp hmem
  cases hpm : lookupA (buildPoolResults (poolOutcome fetchInternal fetchNormal sb eb)
      selected) k with
  | none =>
      rw [hpm] at hsome
      simp [lookupA] at hsome
  | some pm =>
      rw [hpm] at hsome
      cases hlk : lookupA pm addr with
      | none =>
          rw [show ((some pm).getD [] : RecipientMap) = pm from rfl, hlk] at hsome
          simp at hsome
      | some d =>
          have hstat : statFor (buildPoolResults
              (poolOutcome fetchInternal fetchNormal sb eb) selected) selected
              k addr = some d := by
            rw [statFor, if_pos hk, hpm]
            simpa using hlk
          have hpos : StatPos d :=
            statFor_pipeline_statPos fetchInternal fetchNormal sb eb selected
              k addr d hstat
          have hknown : k = "1_eth" ∨ k = "10_eth" ∨ k = "100_eth" := by
            apply known_pool_keys
            have := lookupA_buildPoolResults
              (poolOutcome fetchInternal fetchNormal sb eb) selected k
            rw [hpm] at this
            by_cases hc : k ∈ selected ∧ (lookupA TORNADO_CASH_POOLS k).isSome
            · exact hc.2
            · rw [if_neg hc] at this
              exact absurd this.symm (by simp)
          refine ⟨⟨k, hk, d, hstat, hpos.2.2⟩, ?_, ?_⟩
          · show 0 < poolTotal _ + poolTotal _ + poolTotal _
            have n1 := poolTotal_pipeline_nonneg fetchInternal fetchNormal sb eb
              selected "1_eth" addr
            have n10 := poolTotal_pipeline_nonneg fetchInternal fetchNormal sb eb
              selected "10_eth" addr
            have n100 := poolTotal_pipeline_nonneg fetchInternal fetchNormal sb eb
              selected "100_eth" addr
            rcases hknown with rfl | rfl | rfl
            · have := poolTotal_pos_of_statPos hpos
              rw [← hstat] at this
              linarith
            · have := poolTotal_pos_of_statPos hpos
              rw [← hstat] at this
              linarith
            · have := poolTotal_pos_of_statPos hpos
              rw [← hstat] at this
              linarith
          · have hts : contribTs (statFor (buildPoolResults
                (poolOutcome fetchInternal fetchNormal sb eb) selected) selected
                k addr) ≠ [] := by
              rw [hstat, contribTs, timestampsOf]
              simpa using hpos.2.2
            have hall : (contribTs (statFor (buildPoolResults
                (poolOutcome fetchInternal fetchNormal sb eb) selected) selected
                "1_eth" addr) ++ contribTs (statFor (buildPoolResults
                (poolOutcome fetchInternal fetchNormal sb eb) selected) selected
                "10_eth" addr) ++ contribTs (statFor (buildPoolResults
                (poolOutcome fetchInternal fetchNormal sb eb) selected) selected
                "100_eth" addr)) ≠ [] := by
              rcases hknown with rfl | rfl | rfl <;>
                simp only [ne_eq, List.append_eq_nil, not_and_or] <;> tauto
            obtain ⟨f, l, hf, hl, hfl⟩ := intMin?_le_max? hall
            exact ⟨f, l, hf, hl, hfl⟩

/-- C9: every recipient of a successful `analyze_tornado_cash` run has
at least one contributing transaction in some selected pool, hence
non-null aggregate first/last dates with first ≤ last, and a strictly
positive grand total (every contributing transaction is worth at least
1 wei). -/
theorem C9_merged_recipients_nonempty
    (startResolve endResolve : Option (Except String Int))
    (fetchInternal fetchNormal : String → Int → Int → Except String (List RawTx))
    (selected_pools : Option (List String)) (m : List (String × MergedRecord))
    (h : analyze_tornado_cash startResolve endResolve fetchInternal fetchNormal
        selected_pools = Except.ok m) :
    ∃ pr selected, selected = selected_pools.getD poolKeys ∧
      m = mergeResults pr selected ∧
      ∀ addr r, lookupA m addr = some r →
        (∃ k ∈ selected, ∃ d, statFor pr selected k addr = some d ∧
          d.transactions ≠ []) ∧
        0 < r.grand_total ∧
        (∃ f l, r.first_date = some f ∧ r.last_date = some l ∧ f ≤ l) := by
  obtain ⟨sb, eb, _, _, rfl⟩ := analyze_tornado_cash_ok_shape _ _ _ _ _ _ h
  refine ⟨_, _, rfl, rfl, ?_⟩
  intro addr r hl
  rw [lookupA_mergeResults] at hl
  by_cases hmem : addr ∈ allAddresses
      (buildPoolResults (poolOutcome fetchInternal fetchNormal sb eb)
        (selected_pools.getD poolKeys))
      (selected_pools.getD poolKeys)
  · rw [if_pos hmem] at hl
    obtain rfl : mergeRecord _ _ addr = r := Option.some_injective _ hl
    exact merged_entry_facts fetchInternal fetchNormal sb eb _ addr hmem
  · rw [if_neg hmem] at hl
    exact absurd hl (by simp)

/-- C9 witness: the one-transaction `10_eth`-only run. -/
theorem C9_witness :
    (analyze_tornado_cash none none fetchIw fetchNw (some ["10_eth"]) = Except.ok mW)
    ∧ (∃ pr selected, selected = (some ["10_eth"]).getD poolKeys ∧
        mW = mergeResults pr selected ∧
        ∀ addr r, lookupA mW addr = some r →
          (∃ k ∈ selected, ∃ d, statFor pr selected k addr = some d ∧
            d.transactions ≠ []) ∧
          0 < r.grand_total ∧
          (∃ f l, r.first_date = some f ∧ r.last_date = some l ∧ f ≤ l)) :=
  ⟨rfl, C9_merged_recipients_nonempty none none fetchIw fetchNw (some ["10_eth"])
    mW rfl⟩

/-- C8: for maps produced by `analyze_tornado_cash`, the table rows of
`format_output` (which by default drop recipients with non-positive
grand total) and the CSV rows of `export_csv` are the very same list —
such recipients cannot occur, since every merged recipient has a
strictly positive grand total — so both outputs report identical
per-pool and aggregate totals and counts. -/
theorem C8_table_csv_rows_agree
    (startResolve endResolve : Option (Except String Int))
    (fetchInternal fetchNormal : String → Int → Int → Except String (List RawTx))
    (selected_pools : Option (List String)) (m : List (String × MergedRecord))
    (h : analyze_tornado_cash startResolve endResolve fetchInternal fetchNormal
        selected_pools = Except.ok m) :
    format_output_rows m false = export_csv_rows m := by
  obtain ⟨sb, eb, _, _, rfl⟩ := analyze_tornado_cash_ok_shape _ _ _ _ _ _ h
  have hfilter : (mergeResults
      (buildPoolResults (poolOutcome fetchInternal fetchNormal sb eb)
        (selected_pools.getD poolKeys))
      (selected_pools.getD poolKeys)).filter
        (fun e => decide (0 < e.2.grand_total)) =
      mergeResults
        (buildPoolResults (poolOutcome fetchInternal fetchNormal sb eb)
          (selected_pools.getD poolKeys))
        (selected_pools.getD poolKeys) := by
    apply List.filter_eq_self.mpr
    intro e he
    rw [mergeResults] at he
    obtain ⟨a, ha, rfl⟩ := List.mem_map.mp he
    have hpos := (merged_entry_facts fetchInternal fetchNormal sb eb _ a ha).2.1
    simpa using hpos
  show sortByGrandTotal ((mergeResults
      (buildPoolResults (poolOutcome fetchInternal fetchNormal sb eb)
        (selected_pools.getD poolKeys))
      (selected_pools.getD poolKeys)).filter
        (fun e => decide (0 < e.2.grand_total))) =
    sortByGrandTotal (mergeResults
      (buildPoolResults (poolOutcome fetchInternal fetchNormal sb eb)
        (selected_pools.getD poolKeys))
      (selected_pools.getD poolKeys))
  rw [hfilter]

/-- C8 witness: the one-transaction `10_eth`-only run. -/
theorem C8_witness :
    (analyze_tornado_cash none none fetchIw fetchNw (some ["10_eth"]) = Except.ok mW)
    ∧ format_output_rows mW false = export_csv_rows mW :=
  ⟨rfl, C8_table_csv_rows_agree none none fetchIw fetchNw (some ["10_eth"]) mW rfl⟩

end TornadoViewer
